import Mathlib

/-!
# Verification of the Bastion enclave cryptographic core

Shallow embedding of `src/python_core/src/serializer.py`, `core.py`,
`features.py` and the locker-registry logic of `interface.py`.

Modelling conventions:
* Python `bytes` are `List Nat` with every element `< 256` (tracked by
  explicit hypotheses where needed, never by a machine-integer type).
* Python `str` values that flow through the crypto pipeline are modelled as
  their UTF-8 byte lists; payload strings produced by the canonical
  serializer are pure ASCII (the serializer escapes everything else), so a
  `Char`-to-byte map is exact there.
* The external `cryptography` / `argon2` libraries (AES-256-GCM, Argon2id,
  PBKDF2-HMAC) are not part of this repository.  They are modelled as
  deterministic executable functions with the interface the code relies on:
  the AEAD appends a 16-byte tag that is a function of (key, iv, plaintext)
  and authenticated decryption inverts encryption under the same key/iv and
  fails on a tag mismatch; each KDF is a deterministic function of its
  inputs producing the requested number of bytes.  No claim below depends on
  any other property of those primitives.
* Randomness (`secrets.token_bytes`, `secrets.randbelow`, clocks) is passed
  to the embedded functions as explicit arguments.
-/

/-- Every element of the list is a byte value. -/
def BytesOk (l : List Nat) : Prop := ∀ b ∈ l, b < 256

instance : DecidablePred BytesOk := fun l =>
  inferInstanceAs (Decidable (∀ b ∈ l, b < 256))

/-- `int.from_bytes(l, 'big')`. -/
def beBytesToNat (l : List Nat) : Nat := l.foldl (fun acc b => acc * 256 + b) 0

/-- `n.to_bytes(len, 'big')` (the low `len` big-endian bytes of `n`). -/
def natToBeBytes : Nat → Nat → List Nat
  | 0, _ => []
  | len + 1, n => natToBeBytes len (n / 256) ++ [n % 256]

/-- `struct.pack('<I', n)`: 4 little-endian bytes.  Python raises for
`n ≥ 2^32`; the model reduces mod `2^32`, and every theorem that relies on
the 4-byte round-trip carries a `< 2^32` hypothesis. -/
def le4Bytes (n : Nat) : List Nat :=
  [n % 256, n / 256 % 256, n / 65536 % 256, n / 16777216 % 256]

/-- `struct.unpack('<I', l[:4])` of the first four bytes. -/
def le4Read (l : List Nat) : Nat :=
  l.getD 0 0 + l.getD 1 0 * 256 + l.getD 2 0 * 65536 + l.getD 3 0 * 16777216

/-- Accumulating mixer used by the model PRF (stand-in for the external
cryptographic primitives; only determinism matters to the claims). -/
def mixStep (a b : Nat) : Nat := (a * 131 + b + 7) % 4294967296

/-- Deterministic digest of a byte list, seeded. -/
def mixList (seed : Nat) (l : List Nat) : Nat := l.foldl mixStep seed

/-- `n` pseudo-random bytes from a seed (model PRF output). -/
def prfBytes (seed n : Nat) : List Nat :=
  (List.range n).map (fun i => (seed * (2 * i + 3) + i * 97 + seed / 65536) % 256)

/-- UTF-8 bytes of a string; the strings fed through the pipeline are ASCII,
for which codepoint = byte. -/
def strBytes (s : String) : List Nat := s.data.map Char.toNat

-- ## Base64 (Python `base64.b64encode` / `b64decode`, standard alphabet)

def b64Alphabet : List Char :=
  "ABCDEFGHIJKLMNOPQRSTUVWXYZabcdefghijklmnopqrstuvwxyz0123456789+/".data

/-- Sextet → base64 character. -/
def b64enc (n : Nat) : Char := b64Alphabet.getD n 'A'

/-- Base64 character → sextet (`none` for characters outside the alphabet;
the model decoder is strict where CPython discards foreign characters, a
difference that only reshuffles which malformed inputs fail). -/
def b64dec (c : Char) : Option Nat := b64Alphabet.indexOf? c

/-- Byte list → base64 characters, with `=` padding as in RFC 4648. -/
def b64e : List Nat → List Char
  | [] => []
  | [b0] => [b64enc (b0 / 4), b64enc (b0 % 4 * 16), '=', '=']
  | [b0, b1] => [b64enc (b0 / 4), b64enc (b0 % 4 * 16 + b1 / 16),
                 b64enc (b1 % 16 * 4), '=']
  | b0 :: b1 :: b2 :: rest =>
      b64enc (b0 / 4) :: b64enc (b0 % 4 * 16 + b1 / 16) ::
      b64enc (b1 % 16 * 4 + b2 / 64) :: b64enc (b2 % 64) :: b64e rest

def b64d : List Char → Option (List Nat)
  | [] => some []
  | c0 :: c1 :: c2 :: c3 :: rest =>
      if c2 = '=' then
        if c3 = '=' ∧ rest = [] then
          match b64dec c0, b64dec c1 with
          | some s0, some s1 => some [s0 * 4 + s1 / 16]
          | _, _ => none
        else none
      else if c3 = '=' then
        if rest = [] then
          match b64dec c0, b64dec c1, b64dec c2 with
          | some s0, some s1, some s2 =>
              some [s0 * 4 + s1 / 16, s1 % 16 * 16 + s2 / 4]
          | _, _, _ => none
        else none
      else
        match b64dec c0, b64dec c1, b64dec c2, b64dec c3, b64d rest with
        | some s0, some s1, some s2, some s3, some bs =>
            some ((s0 * 4 + s1 / 16) :: (s1 % 16 * 16 + s2 / 4) ::
                  (s2 % 4 * 64 + s3) :: bs)
        | _, _, _, _, _ => none
  | _ => none

/-- `base64.b64encode(bs).decode('utf-8')`. -/
def base64EncodeStr (bs : List Nat) : String := ⟨b64e bs⟩

/-- `base64.b64decode(s)` (strict). -/
def base64DecodeStr (s : String) : Option (List Nat) := b64d s.data

-- ## Model AEAD: AES-256-GCM interface (external library)

/-- 16-byte authentication tag of the model AEAD, a deterministic function
of key, iv and plaintext. -/
def gcmTag (key iv pt : List Nat) : List Nat :=
  prfBytes (mixList (mixList (mixList 1 key) iv) pt) 16

/-- `AESGCM(key).encrypt(iv, pt, None)`: ciphertext with appended tag.  The
model keeps the body in the clear; no claim concerns confidentiality. -/
def aesgcmEncrypt (key iv pt : List Nat) : List Nat := pt ++ gcmTag key iv pt

/-- `AESGCM(key).decrypt(iv, ct, None)`: splits off the 16-byte tag,
recomputes it, `none` on mismatch (Python: `InvalidTag` exception). -/
def aesgcmDecrypt (key iv ct : List Nat) : Option (List Nat) :=
  if ct.length < 16 then none
  else
    let body := ct.take (ct.length - 16)
    let tag := ct.drop (ct.length - 16)
    if tag = gcmTag key iv body then some body else none

-- ## Model KDFs (`core.py` `BastionCrypto.derive_key_*`, external libraries)

/-- `BastionCrypto.derive_key_argon2(password, salt)`: Argon2id with
time=3, memory=65536, parallelism=1, hash_len=32 — modelled as a 32-byte
deterministic PRF of (password, salt). -/
def derive_key_argon2 (password : String) (salt : List Nat) : List Nat :=
  prfBytes (mixList (mixList 2 (strBytes password)) salt) 32

/-- `BastionCrypto.derive_key_pbkdf2(password, salt, use_domain_sep,
iterations)`: PBKDF2-HMAC-SHA256, 32 bytes; the domain-separated salt is
`"BASTION_VAULT_V1::" ++ salt` exactly as in the source. -/
def derive_key_pbkdf2 (password : String) (salt : List Nat)
    (useDomainSep : Bool) (iterations : Nat) : List Nat :=
  let finalSalt := if useDomainSep then strBytes "BASTION_VAULT_V1::" ++ salt
                   else salt
  prfBytes (mixList (mixList (mixList 3 (strBytes password)) finalSalt)
            [iterations]) 32

/-- PBKDF2-HMAC-SHA512 with caller-chosen output length (the transmuter's
KDF), modelled as a deterministic PRF of (key material, salt, iterations). -/
def pbkdf2Sha512 (keyMaterial salt : List Nat) (iterations dkLen : Nat) :
    List Nat :=
  prfBytes (mixList (mixList (mixList 4 keyMaterial) salt) [iterations]) dkLen

-- ## Canonical serializer (`serializer.py`, class `BastionSerializer`)

/-- JSON values as stored in the dynamic record dicts.  `num` covers the
integer fields the vault uses (`json.dumps` of a Python int). -/
inductive Json where
  | str (s : String)
  | num (n : Nat)
  | jbool (b : Bool)
  | null
  deriving DecidableEq, Repr

/-- A record dict: association list in insertion order. -/
def JRecord : Type := List (String × Json)

instance : DecidableEq JRecord := inferInstanceAs (DecidableEq (List (String × Json)))

instance : Repr JRecord := inferInstanceAs (Repr (List (String × Json)))

/-- `VaultState` dataclass of `core.py` (field order = declaration order,
which is the insertion order of `state.__dict__`). -/
structure VaultState where
  entropy : String
  configs : List JRecord := []
  locker : List JRecord := []
  version : Nat := 1
  lastModified : Nat := 0
  flags : Nat := 0
  notes : List JRecord := []
  contacts : List JRecord := []
  deriving DecidableEq, Repr

def ORDER_ROOT : List String :=
  ["version", "entropy", "flags", "lastModified",
   "locker", "contacts", "notes", "configs"]

def ORDER_CONFIG : List String :=
  ["id", "name", "username", "category", "version",
   "length", "useSymbols", "customPassword", "breachStats", "compromised",
   "createdAt", "updatedAt", "usageCount", "sortOrder"]

def ORDER_NOTE : List String := ["id", "updatedAt", "title", "content"]

def ORDER_CONTACT : List String :=
  ["id", "updatedAt", "name", "email", "phone", "address", "notes"]

def ORDER_RESONANCE : List String :=
  ["id", "timestamp", "label", "size", "mime", "key", "hash", "embedded"]

/-- Insertion sort on strings (used for the keys not present in an order
list; models Python `sorted`). -/
def insertKeySorted (k : String) : List String → List String
  | [] => [k]
  | x :: xs => if k ≤ x then k :: x :: xs else x :: insertKeySorted k xs

def sortKeys : List String → List String
  | [] => []
  | x :: xs => insertKeySorted x (sortKeys xs)

/-- `BastionSerializer._reorder`: keys of `order` that are present, in order,
followed by the remaining keys sorted lexicographically. -/
def reorderRec (r : JRecord) (order : List String) : JRecord :=
  (order.filterMap fun k => (r.find? (fun p => p.1 = k)).map fun p => (k, p.2))
  ++ (sortKeys ((r.map Prod.fst).filter (fun k => ¬ order.contains k))).filterMap
       fun k => (r.find? (fun p => p.1 = k)).map fun p => (k, p.2)

/-- Decimal digits, fuel-indexed so the definition is structural (the fuel
`n + 1` always suffices since `n / 10 < n` for `n ≥ 10`). -/
def natDecimalBytesAux : Nat → Nat → List Nat
  | 0, _ => []
  | fuel + 1, n =>
      if n < 10 then [48 + n]
      else natDecimalBytesAux fuel (n / 10) ++ [48 + n % 10]

/-- Decimal digits of `n` as ASCII bytes (`str(n)` for a Python int). -/
def natDecimalBytes (n : Nat) : List Nat := natDecimalBytesAux (n + 1) n

/-- Hex digit byte (lowercase, as Python `%x`). -/
def hexDigitByte (n : Nat) : Nat := if n < 10 then 48 + n else 87 + n

/-- One JSON-escaped character as bytes, following `json.dumps` with
`ensure_ascii=True`: printable ASCII raw, `"` and `\` escaped, the short
escapes for the common control characters, `\uXXXX` for the rest and for
all non-ASCII codepoints (codepoints beyond the BMP are reduced mod 2^16
here where CPython emits surrogate pairs; the vault payloads are ASCII). -/
def escapeCharBytes (c : Char) : List Nat :=
  let n := c.toNat
  if n = 34 then [92, 34]
  else if n = 92 then [92, 92]
  else if n = 8 then [92, 98]
  else if n = 9 then [92, 116]
  else if n = 10 then [92, 110]
  else if n = 12 then [92, 102]
  else if n = 13 then [92, 114]
  else if n < 32 ∨ n ≥ 128 then
    let m := n % 65536
    [92, 117, hexDigitByte (m / 4096), hexDigitByte (m / 256 % 16),
     hexDigitByte (m / 16 % 16), hexDigitByte (m % 16)]
  else [n]

/-- JSON string literal bytes: `"` + escaped chars + `"`. -/
def jsonStringBytes (s : String) : List Nat :=
  34 :: (s.data.flatMap escapeCharBytes) ++ [34]

/-- Bytes of one JSON value (`json.dumps`, compact). -/
def jsonValueBytes : Json → List Nat
  | .str s => jsonStringBytes s
  | .num n => natDecimalBytes n
  | .jbool true => strBytes "true"
  | .jbool false => strBytes "false"
  | .null => strBytes "null"

/-- Interleave the parts with a separator (`sep.join(parts)`). -/
def joinWith (sep : List Nat) : List (List Nat) → List Nat
  | [] => []
  | f :: fs => f ++ fs.flatMap (fun x => sep ++ x)

/-- Bytes of one record object with `separators=(',', ':')`. -/
def jsonRecordBytes (r : JRecord) : List Nat :=
  123 ::
  joinWith [44] (r.map fun p => jsonStringBytes p.1 ++ [58] ++ jsonValueBytes p.2)
  ++ [125]

/-- Bytes of a JSON array of records. -/
def jsonRecordListBytes (rs : List JRecord) : List Nat :=
  91 :: joinWith [44] (rs.map jsonRecordBytes) ++ [93]

/-- `BastionSerializer.serialize(state)` as UTF-8 bytes.  The eight
dataclass fields all occur in `ORDER_ROOT`, so `_reorder` emits exactly the
root order `version, entropy, flags, lastModified, locker, contacts, notes,
configs` with no remainder; each collection element is reordered by its
order list. -/
def serializeBytes (st : VaultState) : List Nat :=
  let fields : List (List Nat) :=
    [jsonStringBytes "version" ++ [58] ++ natDecimalBytes st.version,
     jsonStringBytes "entropy" ++ [58] ++ jsonStringBytes st.entropy,
     jsonStringBytes "flags" ++ [58] ++ natDecimalBytes st.flags,
     jsonStringBytes "lastModified" ++ [58] ++ natDecimalBytes st.lastModified,
     jsonStringBytes "locker" ++ [58] ++
       jsonRecordListBytes (st.locker.map (reorderRec · ORDER_RESONANCE)),
     jsonStringBytes "contacts" ++ [58] ++
       jsonRecordListBytes (st.contacts.map (reorderRec · ORDER_CONTACT)),
     jsonStringBytes "notes" ++ [58] ++
       jsonRecordListBytes (st.notes.map (reorderRec · ORDER_NOTE)),
     jsonStringBytes "configs" ++ [58] ++
       jsonRecordListBytes (st.configs.map (reorderRec · ORDER_CONFIG))]
  123 :: joinWith [44] fields ++ [125]

-- ## Framer (`serializer.py` `frame` / `deframe`)

/-- `BastionSerializer.frame(json_str)`: 4-byte little-endian length,
payload, zero padding to a 64-byte boundary. -/
def frameBytes (dataBytes : List Nat) : List Nat :=
  let length := dataBytes.length
  let header := le4Bytes length
  let totalRaw := 4 + length
  let remainder := totalRaw % 64
  let paddingNeeded := if remainder = 0 then 0 else 64 - remainder
  header ++ dataBytes ++ List.replicate paddingNeeded 0

/-- `BastionSerializer.deframe(data)`: buffers shorter than 4 bytes decode
directly; otherwise read the little-endian length and slice if it fits,
falling back to the whole buffer. -/
def deframeBytes (data : List Nat) : List Nat :=
  if data.length < 4 then data
  else
    let claimedLen := le4Read data
    if claimedLen ≤ data.length - 4 then (data.drop 4).take claimedLen
    else data

-- ## Envelope codec (`core.py`, class `BastionCrypto`)

def HEADER_V3_5 : List Nat := [0x42, 0x53, 0x54, 0x4E, 0x04]
def HEADER_V3 : List Nat := [0x42, 0x53, 0x54, 0x4E, 0x03]
def HEADER_V2 : List Nat := [0x42, 0x53, 0x54, 0x4E, 0x02]
def MAGIC_HEADER_STR : String := "BASTION_V3::"
def LEGACY_ITERATIONS_V2 : Nat := 210000
def LEGACY_ITERATIONS_V1 : Nat := 100000

/-- `BastionCrypto.encrypt_blob(vault_state, password)` with the fresh
`salt` (16 bytes) and `iv` (12 bytes) from `secrets.token_bytes` passed
explicitly: canonical serialization, framing, Argon2id key, AES-GCM, then
`HEADER_V3_5 ∥ salt ∥ iv ∥ ciphertext`, base64. -/
def encrypt_blob (st : VaultState) (password : String)
    (salt iv : List Nat) : String :=
  let canonical := serializeBytes st
  let framed := frameBytes canonical
  let key := derive_key_argon2 password salt
  let ciphertext := aesgcmEncrypt key iv framed
  base64EncodeStr (HEADER_V3_5 ++ salt ++ iv ++ ciphertext)

/-- KDF paths attempted by `decrypt_blob`, in attempt order. -/
inductive KdfPath where
  | argon2      -- headered V3/V3.5
  | pbkdf2V2    -- headered V2
  | legacyV1    -- headerless, PBKDF2 210k with domain separation
  | legacyV0    -- headerless, PBKDF2 100k raw salt
  deriving DecidableEq, Repr

/-- Body of `BastionCrypto.decrypt_blob` after base64 decoding, returning
`((json_bytes?, is_legacy), attempted KDF paths)`.  Mirrors the control
flow of `core.py` lines 106-179: header sniffing (`len(data) > 5` and
`data[:4] == b"BSTN"`), version dispatch with early `return None, False`
on an AEAD failure inside a headered branch, the headerless fallback ladder
guarded by `decrypted_bytes is None`, the `len(data) < 28` rejection, and
the final truthiness test `if decrypted_bytes:` (an empty plaintext is
falsy and yields `(None, False)`). -/
def decryptCore (data : List Nat) (password : String) :
    (Option (List Nat) × Bool) × List KdfPath :=
  let version : Nat :=
    if data.length > 5 ∧ data.take 4 = [0x42, 0x53, 0x54, 0x4E] then
      match data.getD 4 0 with
      | 4 => 4
      | 3 => 3
      | 2 => 2
      | _ => 1
    else 1
  if version ≥ 3 then
    let salt := (data.drop 5).take 16
    let iv := (data.drop 21).take 12
    let ciphertext := data.drop 33
    let key := derive_key_argon2 password salt
    match aesgcmDecrypt key iv ciphertext with
    | none => ((none, false), [.argon2])
    | some pt =>
        if pt ≠ [] then
          ((some (if version ≥ 4 then deframeBytes pt else pt),
            version = 3), [.argon2])
        else ((none, false), [.argon2])
  else if version = 2 then
    let salt := (data.drop 5).take 16
    let iv := (data.drop 21).take 12
    let ciphertext := data.drop 33
    let key := derive_key_pbkdf2 password salt true LEGACY_ITERATIONS_V2
    match aesgcmDecrypt key iv ciphertext with
    | none => ((none, false), [.pbkdf2V2])
    | some pt =>
        if pt ≠ [] then ((some pt, true), [.pbkdf2V2])
        else ((none, false), [.pbkdf2V2])
  else
    if data.length < 28 then ((none, false), [])
    else
      let salt := data.take 16
      let iv := (data.drop 16).take 12
      let ciphertext := data.drop 28
      let keyV1 := derive_key_pbkdf2 password salt true LEGACY_ITERATIONS_V2
      match aesgcmDecrypt keyV1 iv ciphertext with
      | some pt =>
          if pt ≠ [] then ((some pt, true), [.legacyV1])
          else ((none, false), [.legacyV1])
      | none =>
          let keyV0 := derive_key_pbkdf2 password salt false LEGACY_ITERATIONS_V1
          match aesgcmDecrypt keyV0 iv ciphertext with
          | some pt =>
              if pt ≠ [] then ((some pt, true), [.legacyV1, .legacyV0])
              else ((none, false), [.legacyV1, .legacyV0])
          | none => ((none, false), [.legacyV1, .legacyV0])

/-- `BastionCrypto.decrypt_blob(blob_b64, password)`: base64-decode (any
failure is swallowed by the enclosing `try` into `(None, False)`), then the
version-dispatched decryption.  Returns the decrypted JSON as UTF-8 bytes
together with the `is_legacy` flag. -/
def decrypt_blob (blob : String) (password : String) :
    Option (List Nat) × Bool :=
  match base64DecodeStr blob with
  | none => (none, false)
  | some data => (decryptCore data password).1

/-- The KDF paths `decrypt_blob` attempts on a blob. -/
def decryptPaths (blob : String) (password : String) : List KdfPath :=
  match base64DecodeStr blob with
  | none => []
  | some data => (decryptCore data password).2

-- ## JSON parser (models the stdlib `json.loads` used by `VaultManager.unlock`)

/-- Parsed JSON values.  Nested containers are supported one level inside
records via conversion to `Json`; deeper nesting inside a record value is
rejected by the vault-state builder (the vault schema never produces it). -/
inductive PJson where
  | str (s : String)
  | num (n : Nat)
  | jbool (b : Bool)
  | null
  | arr (elems : List PJson)
  | obj (fields : List (String × PJson))
  deriving Repr

def isWsByte (b : Nat) : Bool := b = 32 ∨ b = 9 ∨ b = 10 ∨ b = 13

def skipWs (l : List Nat) : List Nat := l.dropWhile isWsByte

def hexVal (b : Nat) : Option Nat :=
  if 48 ≤ b ∧ b ≤ 57 then some (b - 48)
  else if 97 ≤ b ∧ b ≤ 102 then some (b - 87)
  else if 65 ≤ b ∧ b ≤ 70 then some (b - 55)
  else none

/-- Parse a JSON string body after the opening quote; supports the escapes
the canonical serializer can emit. -/
def parseStrBody : Nat → List Nat → Option (List Char × List Nat)
  | 0, _ => none
  | _, [] => none
  | fuel + 1, b :: rest =>
      if b = 34 then some ([], rest)
      else if b = 92 then
        match rest with
        | 34 :: r => (parseStrBody fuel r).map fun (cs, t) => ('"' :: cs, t)
        | 92 :: r => (parseStrBody fuel r).map fun (cs, t) => ('\\' :: cs, t)
        | 47 :: r => (parseStrBody fuel r).map fun (cs, t) => ('/' :: cs, t)
        | 98 :: r => (parseStrBody fuel r).map fun (cs, t) =>
            (Char.ofNat 8 :: cs, t)
        | 116 :: r => (parseStrBody fuel r).map fun (cs, t) =>
            (Char.ofNat 9 :: cs, t)
        | 110 :: r => (parseStrBody fuel r).map fun (cs, t) =>
            (Char.ofNat 10 :: cs, t)
        | 102 :: r => (parseStrBody fuel r).map fun (cs, t) =>
            (Char.ofNat 12 :: cs, t)
        | 114 :: r => (parseStrBody fuel r).map fun (cs, t) =>
            (Char.ofNat 13 :: cs, t)
        | 117 :: h1 :: h2 :: h3 :: h4 :: r =>
            match hexVal h1, hexVal h2, hexVal h3, hexVal h4 with
            | some v1, some v2, some v3, some v4 =>
                (parseStrBody fuel r).map fun (cs, t) =>
                  (Char.ofNat (v1 * 4096 + v2 * 256 + v3 * 16 + v4) :: cs, t)
            | _, _, _, _ => none
        | _ => none
      else if b < 256 then
        (parseStrBody fuel rest).map fun (cs, t) => (Char.ofNat b :: cs, t)
      else none

def parseDigits : Nat → List Nat → Nat → Option (Nat × List Nat)
  | 0, _, _ => none
  | _, [], acc => some (acc, [])
  | fuel + 1, b :: rest, acc =>
      if 48 ≤ b ∧ b ≤ 57 then parseDigits fuel rest (acc * 10 + (b - 48))
      else some (acc, b :: rest)

mutual

/-- Fuel-indexed recursive-descent JSON parser (nonnegative integers,
strings, booleans, null, arrays, objects — the grammar the vault emits). -/
def parseJsonVal : Nat → List Nat → Option (PJson × List Nat)
  | 0, _ => none
  | fuel + 1, input =>
      match skipWs input with
      | [] => none
      | b :: rest =>
          if b = 34 then
            (parseStrBody (fuel + 1) rest).map fun (cs, t) => (.str ⟨cs⟩, t)
          else if 48 ≤ b ∧ b ≤ 57 then
            (parseDigits (fuel + 1) (b :: rest) 0).map fun (n, t) => (.num n, t)
          else if b = 116 then
            match rest with
            | 114 :: 117 :: 101 :: t => some (.jbool true, t)
            | _ => none
          else if b = 102 then
            match rest with
            | 97 :: 108 :: 115 :: 101 :: t => some (.jbool false, t)
            | _ => none
          else if b = 110 then
            match rest with
            | 117 :: 108 :: 108 :: t => some (.null, t)
            | _ => none
          else if b = 91 then
            match skipWs rest with
            | 93 :: t => some (.arr [], t)
            | r => parseArrElems fuel r []
          else if b = 123 then
            match skipWs rest with
            | 125 :: t => some (.obj [], t)
            | r => parseObjFields fuel r []
          else none

/-- Array elements, expecting a value then `,` or `]`. -/
def parseArrElems : Nat → List Nat → List PJson → Option (PJson × List Nat)
  | 0, _, _ => none
  | fuel + 1, input, acc =>
      match parseJsonVal fuel input with
      | none => none
      | some (v, rest) =>
          match skipWs rest with
          | 44 :: r => parseArrElems fuel r (acc ++ [v])
          | 93 :: r => some (.arr (acc ++ [v]), r)
          | _ => none

/-- Object fields, expecting `"key": value` then `,` or `}`. -/
def parseObjFields : Nat → List Nat → List (String × PJson) →
    Option (PJson × List Nat)
  | 0, _, _ => none
  | fuel + 1, input, acc =>
      match skipWs input with
      | 34 :: r =>
          match parseStrBody fuel r with
          | none => none
          | some (cs, rest) =>
              match skipWs rest with
              | 58 :: r2 =>
                  match parseJsonVal fuel r2 with
                  | none => none
                  | some (v, rest2) =>
                      match skipWs rest2 with
                      | 44 :: r3 => parseObjFields fuel r3 (acc ++ [(⟨cs⟩, v)])
                      | 125 :: r3 => some (.obj (acc ++ [(⟨cs⟩, v)]), r3)
                      | _ => none
              | _ => none
      | _ => none

end

/-- `json.loads(bytes)`: parse one value, require only whitespace after. -/
def jsonLoads (bytes : List Nat) : Option PJson :=
  match parseJsonVal (bytes.length + 1) bytes with
  | some (v, rest) => if skipWs rest = [] then some v else none
  | none => none

-- ## Vault manager (`core.py`, class `VaultManager`)

/-- Convert a parsed scalar back to a record value (`Json`); containers
nested inside a record are outside the modelled schema. -/
def pToJson : PJson → Option Json
  | .str s => some (.str s)
  | .num n => some (.num n)
  | .jbool b => some (.jbool b)
  | .null => some .null
  | _ => none

def pFieldsToRecord (fs : List (String × PJson)) : Option JRecord :=
  fs.mapM fun p => (pToJson p.2).map fun j => (p.1, j)

def pToRecordList : PJson → Option (List JRecord)
  | .arr es => es.mapM fun e =>
      match e with
      | .obj fs => pFieldsToRecord fs
      | _ => none
  | _ => none

def lookupField (fs : List (String × PJson)) (k : String) : Option PJson :=
  (fs.find? fun p => p.1 = k).map Prod.snd

/-- `VaultState(entropy=data['entropy'], configs=data.get('configs', []),
...)` from `VaultManager.unlock`.  A missing `entropy` is Python's
`KeyError`; a value whose shape does not fit the schema is a dynamic-typing
corner the model rejects as an error. -/
def buildVaultState (p : PJson) : Except String VaultState :=
  match p with
  | .obj fs =>
      match lookupField fs "entropy" with
      | some (.str e) =>
          let getNum := fun (k : String) (d : Nat) =>
            match lookupField fs k with
            | some (.num n) => Except.ok n
            | none => Except.ok d
            | some _ => Except.error "type"
          let getRecs := fun (k : String) =>
            match lookupField fs k with
            | some v =>
                match pToRecordList v with
                | some rs => Except.ok rs
                | none => Except.error "type"
            | none => Except.ok ([] : List JRecord)
          do
            let configs ← getRecs "configs"
            let locker ← getRecs "locker"
            let version ← getNum "version" 1
            let lastModified ← getNum "lastModified" 0
            let flags ← getNum "flags" 0
            let notes ← getRecs "notes"
            let contacts ← getRecs "contacts"
            pure { entropy := e, configs := configs, locker := locker,
                   version := version, lastModified := lastModified,
                   flags := flags, notes := notes, contacts := contacts }
      | some _ => Except.error "type"
      | none => Except.error "KeyError: entropy"
  | _ => Except.error "not an object"

/-- `json.loads` + the `VaultState(...)` construction of `unlock`. -/
def parseVaultJson (bytes : List Nat) : Except String VaultState :=
  match jsonLoads bytes with
  | none => Except.error "json"
  | some p => buildVaultState p

/-- The four fields of `VaultManager` (the file path is fixed at the
call sites the claims cover). -/
structure VaultManager where
  blobs : List String
  active_state : Option VaultState
  active_password : Option String
  active_blob_index : Int
  deriving Repr, DecidableEq

/-- `json.dumps(self.blobs)` with the default `', '` separator. -/
def jsonDumpBlobs (blobs : List String) : List Nat :=
  91 :: joinWith [44, 32] (blobs.map jsonStringBytes) ++ [93]

/-- `VaultManager.save_file(self)` with the clock reading and the fresh
salt/iv passed explicitly.  Mirrors the Python truthiness guard
`if self.active_state and self.active_password:` (an empty password string
is falsy, so nothing is re-encrypted then), the slot replacement at
`active_blob_index` (Python raises `IndexError` when the index is past the
end; the model's `List.set` is then a no-op — no claim touches that case),
and the final `"BASTION_V3::" + b64(json.dumps(blobs))` file text.
Returns the updated manager and the file content written atomically. -/
def save_file (m : VaultManager) (nowMs : Nat) (salt iv : List Nat) :
    VaultManager × String :=
  let m1 :=
    match m.active_state, m.active_password with
    | some st, some pw =>
        if pw = "" then m
        else
          let st' := { st with lastModified := nowMs, version := st.version + 1 }
          let newBlob := encrypt_blob st' pw salt iv
          if m.active_blob_index ≥ 0 then
            { m with active_state := some st',
                     blobs := m.blobs.set m.active_blob_index.toNat newBlob }
          else
            { m with active_state := some st',
                     blobs := m.blobs ++ [newBlob],
                     active_blob_index := (m.blobs.length : Int) }
    | _, _ => m
  (m1, MAGIC_HEADER_STR ++ base64EncodeStr (jsonDumpBlobs m1.blobs))

/-- Loop body of `VaultManager.unlock`: try each blob in order; on the
first truthy decryption, parse the state (a `json.loads`/`KeyError` failure
propagates as an exception), record the slot, and when the blob was legacy
immediately rewrite via `save_file` (its result is the file written during
the upgrade).  Returns `(manager, written file?, success)`. -/
def unlockGo (pw : String) (nowMs : Nat) (salt iv : List Nat)
    (m : VaultManager) :
    Nat → List String → Except String (VaultManager × Option String × Bool)
  | _, [] => .ok (m, none, false)
  | idx, blob :: rest =>
      match decrypt_blob blob pw with
      | (some jsonBytes, isLegacy) =>
          if jsonBytes ≠ [] then
            match parseVaultJson jsonBytes with
            | .error e => .error e
            | .ok st =>
                let m1 := { m with active_state := some st,
                                   active_password := some pw,
                                   active_blob_index := (idx : Int) }
                if isLegacy then
                  let res := save_file m1 nowMs salt iv
                  .ok (res.1, some res.2, true)
                else .ok (m1, none, true)
          else unlockGo pw nowMs salt iv m (idx + 1) rest
      | (none, _) => unlockGo pw nowMs salt iv m (idx + 1) rest

/-- `VaultManager.unlock(password)`. -/
def unlock (m : VaultManager) (password : String) (nowMs : Nat)
    (salt iv : List Nat) :
    Except String (VaultManager × Option String × Bool) :=
  unlockGo password nowMs salt iv m 0 m.blobs

-- ## Password transmuter (`features.py`, class `ChaosEngine`)

def ALPHA : String := "abcdefghijklmnopqrstuvwxyz"
def CAPS : String := "ABCDEFGHIJKLMNOPQRSTUVWXYZ"
def NUM : String := "0123456789"
def SYM : String := "!@#$%^&*()_+-=[]{}|;:,.<>?"
def GENERATOR_ITERATIONS : Nat := 210000

/-- `str(n)` for a Python int (nonnegative here). -/
def natDecimalStr (n : Nat) : String := ⟨(natDecimalBytes n).map Char.ofNat⟩

/-- The rejection-sampling `while` loop of `ChaosEngine.transmute`:
`while len(password) < length and buf_idx < len(flux_bytes)`. -/
def chaosLoop (pool : List Char) (limit tlen : Nat) :
    List Nat → List Char → List Char
  | [], acc => acc
  | b :: rest, acc =>
      if acc.length < tlen then
        if b < limit then
          chaosLoop pool limit tlen rest (acc ++ [pool.getD (b % pool.length) 'a'])
        else chaosLoop pool limit tlen rest acc
      else acc

/-- `ChaosEngine.transmute(entropy, service, username, version, length,
symbols)`. -/
def transmute (entropy service username : String) (version length : Nat)
    (symbols : Bool) : String :=
  let salt_str := "BASTION_GENERATOR_V2::" ++ service.toLower ++ "::" ++
                  username.toLower ++ "::v" ++ natDecimalStr version
  let dkLen := length * 32
  let flux_bytes := pbkdf2Sha512 (strBytes entropy) (strBytes salt_str)
                      GENERATOR_ITERATIONS dkLen
  let pool := (ALPHA ++ CAPS ++ NUM ++ (if symbols then SYM else "")).data
  let limit := 256 - 256 % pool.length
  ⟨chaosLoop pool limit length flux_bytes []⟩

/-- Modelled from the spec (§4.5 Password Transmuter), as the reference
definition claim C6 compares against: salt
`"BASTION_GENERATOR_V2::" ∥ lower(service) ∥ "::" ∥ lower(username) ∥ "::v"
∥ decimal(version)`; `flux = PBKDF2-HMAC-SHA512(entropy, salt, 210_000,
length*32)`; pool = lowercase ∪ uppercase ∪ digits (∪ symbols iff
`useSymbols`); `limit = 256 - (256 mod |pool|)`; then left-to-right
rejection sampling emitting `pool[b mod |pool|]` for each `b < limit`,
stopping once `length` characters exist or the flux is exhausted (rendered
as a fold whose guard stops emitting at `length`). -/
def transmuteSpec (entropy service username : String) (version length : Nat)
    (useSymbols : Bool) : String :=
  let salt := "BASTION_GENERATOR_V2::" ++ service.toLower ++ "::" ++
              username.toLower ++ "::v" ++ natDecimalStr version
  let flux := pbkdf2Sha512 (strBytes entropy) (strBytes salt) 210000
                (length * 32)
  let pool := (ALPHA ++ CAPS ++ NUM ++ (if useSymbols then SYM else "")).data
  let limit := 256 - 256 % pool.length
  ⟨flux.foldl
     (fun acc b =>
       if acc.length < length ∧ b < limit then
         acc ++ [pool.getD (b % pool.length) 'a']
       else acc)
     []⟩

-- ## File locker (`features.py` `LockerEngine`, registry in `interface.py`)

def LOCKER_MAGIC : List Nat := strBytes "BASTION1"

/-- `f"{file_id:<36}"`: left-justified space padding to width 36. -/
def padId36 (fid : String) : String :=
  fid ++ ⟨List.replicate (36 - fid.length) ' '⟩

/-- Lowercase hex rendering of a byte list (`bytes.hex()`). -/
def bytesToHexStr (l : List Nat) : String :=
  ⟨l.flatMap fun b => [Char.ofNat (hexDigitByte (b / 16 % 16)),
                       Char.ofNat (hexDigitByte (b % 16))]⟩

/-- `LockerEngine.encrypt_file` with the file contents read from disk and
the fresh `file_id` (`token_hex(18)`, 36 hex chars), `key` (32 bytes) and
`iv` (12 bytes) passed explicitly.  Returns the bytes written to
`path + ".bastion"` (`MAGIC ∥ id(36, space-padded) ∥ iv ∥ ciphertext`) and
the hex key handed back to the caller. -/
def encrypt_file (data : List Nat) (file_id : String) (key iv : List Nat) :
    List Nat × String :=
  let id_bytes := strBytes (padId36 file_id)
  let header := LOCKER_MAGIC ++ id_bytes ++ iv
  (header ++ aesgcmEncrypt key iv data, bytesToHexStr key)

def isPyWsChar (c : Char) : Bool :=
  c = ' ' ∨ c = Char.ofNat 9 ∨ c = Char.ofNat 10 ∨ c = Char.ofNat 13 ∨
  c = Char.ofNat 11 ∨ c = Char.ofNat 12

/-- Python `str.strip()` (ASCII whitespace suffices here). -/
def stripStr (s : String) : String :=
  ⟨((s.data.dropWhile isPyWsChar).reverse.dropWhile isPyWsChar).reverse⟩

/-- The registry entry `menu_locker` appends after a successful
`encrypt_file`: `{"id": secrets.token_hex(8), "label": label, "key": key,
"timestamp": ...}` — note the `id` is a fresh 8-byte random hex string,
not the id written into the file header. -/
def lockerRegisterEntry (regId label keyHex : String) (ts : Nat) : JRecord :=
  [("id", Json.str regId), ("label", Json.str label),
   ("key", Json.str keyHex), ("timestamp", Json.num ts)]

/-- The id `menu_locker`'s decrypt branch reads back from an encrypted
file: first 44 bytes must be `BASTION1` + id field; the id is decoded and
stripped. -/
def lockerHeaderId (fileBytes : List Nat) : Option String :=
  if fileBytes.length ≥ 44 ∧ fileBytes.take 8 = LOCKER_MAGIC then
    some (stripStr ⟨((fileBytes.drop 8).take 36).map Char.ofNat⟩)
  else none

/-- The registry scan of `menu_locker`'s decrypt branch:
`for entry in locker: if entry['id'] == file_id: found_key = entry['key']`. -/
def lockerLookupKey (locker : List JRecord) (fid : String) : Option Json :=
  match locker.find? (fun entry =>
      (entry.find? fun p => p.1 = "id").map Prod.snd = some (Json.str fid)) with
  | some entry => (entry.find? fun p => p.1 = "key").map Prod.snd
  | none => none

-- ## Shamir threshold engine (`features.py`, class `SecretSharer`)

/-- `SecretSharer.PRIME`: the secp256k1 field prime. -/
def PRIME : Nat := 2 ^ 256 - 2 ^ 32 - 977

instance : NeZero PRIME := ⟨by decide⟩

instance : Fact (1 < PRIME) := ⟨by decide⟩

/-- One parsed shard.  The source renders shards as the ASCII string
`"bst_p256_{id}_{k}_{x}_{y}_{payload}"` and `combine` splits on `_` into
seven fields; the model works at the level of those fields (`scheme` is
field 2: `"p256"`, or `"s1"` for the rejected legacy format; the constant
`"bst"` field 1 and the field count are carried by the structure itself). -/
structure Shard where
  scheme : String
  sid : String
  k : Nat
  x : Nat
  y : Nat
  payload : List Nat
  deriving DecidableEq, Repr, Inhabited

/-- The accumulation `y = (y + coeff * pow(x, i, PRIME)) % PRIME` of
`SecretSharer.split`. -/
def polyEvalAux : List Nat → Nat → Nat → Nat → Nat
  | [], _, _, acc => acc
  | c :: rest, x, i, acc =>
      polyEvalAux rest x (i + 1) ((acc + c * (x ^ i % PRIME)) % PRIME)

def polyEvalMod (coeffs : List Nat) (x : Nat) : Nat := polyEvalAux coeffs x 0 0

/-- `SecretSharer.split(secret_str, shares, threshold)` with the random
draws passed explicitly: `session_key` (32 bytes), `iv` (12 bytes), the
`threshold - 1` random coefficients, and the 8-hex-char `share_id`. -/
def splitShamir (secret : String) (shares threshold : Nat)
    (session_key iv coeffs : List Nat) (share_id : String) : List Shard :=
  let ciphertext := aesgcmEncrypt session_key iv (strBytes secret)
  let payload := iv ++ ciphertext
  let secret_int := beBytesToNat session_key
  let allCoeffs := secret_int :: coeffs
  (List.range shares).map fun i =>
    { scheme := "p256", sid := share_id, k := threshold, x := i + 1,
      y := polyEvalMod allCoeffs (i + 1), payload := payload }

/-- Inner loop of the Lagrange interpolation:
`num = (num * (0 - xm)) % P` over all indices `m ≠ j`, in index order.
The running arithmetic mod `P` is modelled in `ZMod PRIME`. -/
def lagNum (xs : List Nat) (j : Nat) : ZMod PRIME :=
  ((List.range xs.length).filter (fun m => m ≠ j)).foldl
    (fun a m => a * (0 - (xs.getD m 0 : ZMod PRIME))) 1

/-- `den = (den * (xj - xm)) % P` over all `m ≠ j`. -/
def lagDen (xs : List Nat) (j : Nat) : ZMod PRIME :=
  ((List.range xs.length).filter (fun m => m ≠ j)).foldl
    (fun a m => a * ((xs.getD j 0 : ZMod PRIME) - (xs.getD m 0 : ZMod PRIME))) 1

/-- The outer loop `secret_int = (secret_int + yj*num*mod_inv(den)) % P`.
`SecretSharer._mod_inv` is `pow(a, -1, PRIME)`, the extended-gcd modular
inverse; for invertible `a` this is the `ZMod PRIME` inverse (for a
non-invertible `a` Python raises where `ZMod.inv` returns a junk value —
only unit denominators occur in the claims below). -/
def lagrangeSum (kShares : List Shard) : ZMod PRIME :=
  let xs := kShares.map (·.x)
  (List.range kShares.length).foldl
    (fun acc j =>
      acc + ((kShares.getD j default).y : ZMod PRIME) * lagNum xs j *
        (lagDen xs j)⁻¹) 0

/-- `SecretSharer.combine(shards)`: the format/consistency checks of the
source (malformed prefix, legacy `s1` shards, mismatched `share_id` or
payload, too few shards), then Lagrange interpolation at 0 over the first
`k` shards, conversion of the recovered integer to 32 big-endian bytes, and
AEAD decryption of the payload.  Returns the plaintext bytes. -/
def combineShamir (shards : List Shard) : Except String (List Nat) :=
  match shards with
  | [] => .error "No shards provided"
  | first :: _ =>
      if shards.any (fun s => s.scheme = "s1") then
        .error "Legacy GF(256) shards detected. Use V2 runtime."
      else if shards.any (fun s => s.scheme ≠ "p256") then
        .error "Invalid shard format"
      else if shards.any (fun s => s.sid ≠ first.sid) then
        .error "Shards belong to different secrets"
      else if shards.any (fun s => s.payload ≠ first.payload) then
        .error "Payload mismatch"
      else if shards.length < first.k then
        .error "Not enough shards"
      else
        let kShares := shards.take first.k
        let secret_int := (lagrangeSum kShares).val
        let session_key := natToBeBytes 32 secret_int
        let ivp := first.payload.take 12
        let ct := first.payload.drop 12
        match aesgcmDecrypt session_key ivp ct with
        | some pt => .ok pt
        | none => .error "Decryption failed. Invalid recovered key."

-- ## Concrete inputs used by the claim witnesses and counterexamples

def wSalt16 : List Nat := List.replicate 16 1
def wIv12 : List Nat := List.replicate 12 2

/-- A headerless legacy V1 blob sealed under password `"p"`. -/
def wLegacyBlob : String :=
  base64EncodeStr (wSalt16 ++ wIv12 ++
    aesgcmEncrypt (derive_key_pbkdf2 "p" wSalt16 true LEGACY_ITERATIONS_V2)
      wIv12 (serializeBytes { entropy := "aa" }))

def wManager : VaultManager := ⟨[wLegacyBlob], none, none, -1⟩

def wUnlockRes : VaultManager × Option String × Bool :=
  (unlock wManager "p" 5 (List.replicate 16 3) (List.replicate 12 4)).toOption.getD
    (⟨[], none, none, -1⟩, none, false)

/-- A headerless legacy V1 blob sealed under the empty password. -/
def wLegacyBlobE : String :=
  base64EncodeStr (wSalt16 ++ wIv12 ++
    aesgcmEncrypt (derive_key_pbkdf2 "" wSalt16 true LEGACY_ITERATIONS_V2)
      wIv12 (serializeBytes { entropy := "aa" }))

def wManagerE : VaultManager := ⟨[wLegacyBlobE], none, none, -1⟩

def wUnlockResE : VaultManager × Option String × Bool :=
  (unlock wManagerE "" 5 (List.replicate 16 3) (List.replicate 12 4)).toOption.getD
    (⟨[], none, none, -1⟩, none, false)

-- ### Supporting lemmas (bytes, base64, AEAD)

theorem natToBeBytes_length (len n : Nat) : (natToBeBytes len n).length = len := by
  induction len generalizing n with
  | zero => rfl
  | succ k ih => simp [natToBeBytes, ih]

theorem natToBeBytes_ok (len n : Nat) : BytesOk (natToBeBytes len n) := by
  induction len generalizing n with
  | zero => intro b hb; simp [natToBeBytes] at hb
  | succ k ih =>
      intro b hb
      simp only [natToBeBytes, List.mem_append, List.mem_singleton] at hb
      rcases hb with h | h
      · exact ih _ b h
      · subst h; exact Nat.mod_lt _ (by omega)

theorem beBytesToNat_append (l : List Nat) (b : Nat) :
    beBytesToNat (l ++ [b]) = beBytesToNat l * 256 + b := by
  simp [beBytesToNat, List.foldl_append]

theorem beBytesToNat_natToBeBytes (len n : Nat) (h : n < 256 ^ len) :
    beBytesToNat (natToBeBytes len n) = n := by
  induction len generalizing n with
  | zero => interval_cases n; rfl
  | succ k ih =>
      have h1 : n / 256 < 256 ^ k := by
        rw [Nat.div_lt_iff_lt_mul (by omega)]
        calc n < 256 ^ (k + 1) := h
        _ = 256 ^ k * 256 := by ring
      rw [natToBeBytes, beBytesToNat_append, ih _ h1]
      omega

theorem natToBeBytes_beBytesToNat (l : List Nat) (h : BytesOk l) :
    natToBeBytes l.length (beBytesToNat l) = l := by
  induction l using List.reverseRecOn with
  | nil => rfl
  | append_singleton xs b ih =>
      have hb : b < 256 := h b (by simp)
      have hxs : BytesOk xs := fun x hx => h x (by simp [hx])
      rw [beBytesToNat_append]
      simp only [List.length_append, List.length_singleton]
      rw [natToBeBytes]
      have h1 : (beBytesToNat xs * 256 + b) / 256 = beBytesToNat xs := by omega
      have h2 : (beBytesToNat xs * 256 + b) % 256 = b := by omega
      rw [h1, h2, ih hxs]

theorem b64dec_b64enc (s : Nat) (h : s < 64) : b64dec (b64enc s) = some s := by
  interval_cases s <;> decide

theorem b64enc_ne_eq (s : Nat) (h : s < 64) : b64enc s ≠ '=' := by
  interval_cases s <;> decide

theorem b64d_b64e (bs : List Nat) (h : BytesOk bs) : b64d (b64e bs) = some bs := by
  induction bs using b64e.induct with
  | case1 => rfl
  | case2 b0 =>
      have hb0 : b0 < 256 := h b0 (by simp)
      rw [b64e, b64d]
      rw [if_pos rfl, if_pos ⟨rfl, rfl⟩]
      rw [b64dec_b64enc _ (by omega), b64dec_b64enc _ (by omega)]
      simp only [Option.some.injEq, List.cons.injEq, and_true]
      omega
  | case3 b0 b1 =>
      have hb0 : b0 < 256 := h b0 (by simp)
      have hb1 : b1 < 256 := h b1 (by simp)
      rw [b64e, b64d]
      rw [if_neg (b64enc_ne_eq _ (by omega)), if_pos rfl, if_pos rfl]
      rw [b64dec_b64enc _ (by omega), b64dec_b64enc _ (by omega),
          b64dec_b64enc _ (by omega)]
      simp only [Option.some.injEq, List.cons.injEq, and_true]
      constructor <;> omega
  | case4 b0 b1 b2 rest ih =>
      have hb0 : b0 < 256 := h b0 (by simp)
      have hb1 : b1 < 256 := h b1 (by simp)
      have hb2 : b2 < 256 := h b2 (by simp)
      have hrest : BytesOk rest := fun x hx => h x (by simp [hx])
      rw [b64e, b64d]
      rw [if_neg (b64enc_ne_eq _ (by omega)), if_neg (b64enc_ne_eq _ (by omega))]
      rw [b64dec_b64enc _ (by omega), b64dec_b64enc _ (by omega),
          b64dec_b64enc _ (by omega), b64dec_b64enc _ (by omega), ih hrest]
      simp only [Option.some.injEq, List.cons.injEq, and_true]
      refine ⟨by omega, by omega, by omega⟩

theorem base64_roundtrip (bs : List Nat) (h : BytesOk bs) :
    base64DecodeStr (base64EncodeStr bs) = some bs := by
  simpa [base64DecodeStr, base64EncodeStr] using b64d_b64e bs h

theorem aesgcm_roundtrip (key iv pt : List Nat) :
    aesgcmDecrypt key iv (aesgcmEncrypt key iv pt) = some pt := by
  have hlen : (gcmTag key iv pt).length = 16 := by simp [gcmTag, prfBytes]
  have hctlen : (pt ++ gcmTag key iv pt).length = pt.length + 16 := by
    simp [hlen]
  rw [aesgcmEncrypt, aesgcmDecrypt, if_neg (by omega)]
  simp only [hctlen, Nat.add_sub_cancel]
  rw [List.take_left' rfl, List.drop_left' rfl, if_pos rfl]

theorem gcmTag_ok (key iv pt : List Nat) : BytesOk (gcmTag key iv pt) := by
  intro b hb
  simp only [gcmTag, prfBytes, List.mem_map, List.mem_range] at hb
  obtain ⟨i, _, hi⟩ := hb
  omega

theorem prfBytes_ok (seed n : Nat) : BytesOk (prfBytes seed n) := by
  intro b hb
  simp only [prfBytes, List.mem_map, List.mem_range] at hb
  obtain ⟨i, _, hi⟩ := hb
  omega

theorem le4Bytes_ok (n : Nat) : BytesOk (le4Bytes n) := by
  intro b hb
  simp only [le4Bytes, List.mem_cons, List.not_mem_nil, or_false] at hb
  rcases hb with h | h | h | h <;> subst h <;> exact Nat.mod_lt _ (by omega)

theorem le4Read_le4Bytes (n : Nat) (h : n < 4294967296) :
    le4Read (le4Bytes n) = n := by
  simp only [le4Bytes, le4Read, List.getD]
  simp only [List.get?_cons_zero, List.get?_cons_succ, Option.getD_some]
  omega

-- ### Framer lemmas

theorem le4Read_append (a rest : List Nat) (h : a.length = 4) :
    le4Read (a ++ rest) = le4Read a := by
  match a, h with
  | [b0, b1, b2, b3], _ => rfl

theorem frameBytes_eq (bs : List Nat) :
    frameBytes bs = le4Bytes bs.length ++ bs ++
      List.replicate (if (4 + bs.length) % 64 = 0 then 0
                      else 64 - (4 + bs.length) % 64) 0 := rfl

theorem frameBytes_assoc (bs : List Nat) :
    frameBytes bs = le4Bytes bs.length ++ (bs ++
      List.replicate (if (4 + bs.length) % 64 = 0 then 0
                      else 64 - (4 + bs.length) % 64) 0) := by
  rw [frameBytes_eq, List.append_assoc]

theorem frameBytes_len_ge (bs : List Nat) :
    4 + bs.length ≤ (frameBytes bs).length := by
  rw [frameBytes_eq]
  simp only [List.length_append, List.length_replicate, le4Bytes,
    List.length_cons, List.length_nil]
  omega

theorem deframe_frame (bs : List Nat) (h : bs.length < 4294967296) :
    deframeBytes (frameBytes bs) = bs := by
  obtain ⟨pad, hfb⟩ : ∃ pad, frameBytes bs =
      le4Bytes bs.length ++ (bs ++ List.replicate pad 0) :=
    ⟨_, frameBytes_assoc bs⟩
  have hle4 : (le4Bytes bs.length).length = 4 := rfl
  have hlen : (le4Bytes bs.length ++ (bs ++ List.replicate pad 0)).length =
      4 + bs.length + pad := by simp [le4Bytes]; omega
  rw [hfb, deframeBytes, if_neg (by omega)]
  show (if le4Read (le4Bytes bs.length ++ (bs ++ List.replicate pad 0)) ≤
          (le4Bytes bs.length ++ (bs ++ List.replicate pad 0)).length - 4 then
        ((le4Bytes bs.length ++ (bs ++ List.replicate pad 0)).drop 4).take
          (le4Read (le4Bytes bs.length ++ (bs ++ List.replicate pad 0)))
        else le4Bytes bs.length ++ (bs ++ List.replicate pad 0)) = bs
  rw [le4Read_append _ _ hle4, le4Read_le4Bytes _ h]
  rw [if_pos (by omega)]
  rw [List.drop_left' hle4, List.take_left' rfl]

theorem deframe_unframed (buf : List Nat) (h : buf.length - 4 < le4Read buf) :
    deframeBytes buf = buf := by
  rw [deframeBytes]
  split
  · rfl
  · rw [if_neg (by omega)]

-- ### Serializer output is made of bytes

theorem joinWith_ok (sep : List Nat) (parts : List (List Nat))
    (hsep : BytesOk sep) (hp : ∀ p ∈ parts, BytesOk p) :
    BytesOk (joinWith sep parts) := by
  match parts with
  | [] => intro b hb; simp [joinWith] at hb
  | f :: fs =>
      intro b hb
      simp only [joinWith, List.mem_append, List.mem_flatMap] at hb
      rcases hb with h | ⟨x, hx, hbx⟩
      · exact hp f (by simp) b h
      · rcases hbx with h | h
        · exact hsep b h
        · exact hp x (by simp [hx]) b h

theorem natDecimalBytesAux_ok (fuel n : Nat) :
    BytesOk (natDecimalBytesAux fuel n) := by
  induction fuel generalizing n with
  | zero => intro b hb; simp [natDecimalBytesAux] at hb
  | succ k ih =>
      intro b hb
      rw [natDecimalBytesAux] at hb
      split at hb
      · simp at hb; omega
      · rcases List.mem_append.mp hb with h2 | h2
        · exact ih (n / 10) b h2
        · simp at h2; omega

theorem natDecimalBytes_ok (n : Nat) : BytesOk (natDecimalBytes n) :=
  natDecimalBytesAux_ok (n + 1) n

theorem hexDigitByte_lt (n : Nat) (h : n < 16) : hexDigitByte n < 256 := by
  rw [hexDigitByte]; split <;> omega

theorem escapeCharBytes_ok (c : Char) : BytesOk (escapeCharBytes c) := by
  intro b hb
  simp only [escapeCharBytes] at hb
  split_ifs at hb with h1 h2 h3 h4 h5 h6 h7 h8 <;>
    simp only [List.mem_cons, List.not_mem_nil, or_false] at hb
  all_goals
    first
    | omega
    | (rcases hb with h | h | h | h | h | h <;> subst h <;>
        first
        | omega
        | exact hexDigitByte_lt _ (by omega))

theorem jsonStringBytes_ok (s : String) : BytesOk (jsonStringBytes s) := by
  intro b hb
  rcases List.mem_cons.mp hb with h | h
  · omega
  rcases List.mem_append.mp h with h | h
  · obtain ⟨c, _, hc⟩ := List.mem_flatMap.mp h
    exact escapeCharBytes_ok c b hc
  · simp at h; omega

theorem strBytes_lit_ok (s : String) (h : ∀ c ∈ s.data, c.toNat < 256) :
    BytesOk (strBytes s) := by
  intro b hb
  simp only [strBytes, List.mem_map] at hb
  obtain ⟨c, hc, rfl⟩ := hb
  exact h c hc

theorem jsonValueBytes_ok (v : Json) : BytesOk (jsonValueBytes v) := by
  match v with
  | .str s => exact jsonStringBytes_ok s
  | .num n => exact natDecimalBytes_ok n
  | .jbool true => exact strBytes_lit_ok _ (by decide)
  | .jbool false => exact strBytes_lit_ok _ (by decide)
  | .null => exact strBytes_lit_ok _ (by decide)

theorem jsonRecordBytes_ok (r : JRecord) : BytesOk (jsonRecordBytes r) := by
  intro b hb
  rcases List.mem_cons.mp hb with h | h
  · omega
  rcases List.mem_append.mp h with h | h
  · refine joinWith_ok [44] _ (by intro x hx; simp at hx; omega) ?_ b h
    intro p hp
    simp only [List.mem_map] at hp
    obtain ⟨q, _, rfl⟩ := hp
    intro x hx
    rcases List.mem_append.mp hx with h2 | h2
    · rcases List.mem_append.mp h2 with h3 | h3
      · exact jsonStringBytes_ok _ x h3
      · simp at h3; omega
    · exact jsonValueBytes_ok _ x h2
  · simp at h; omega

theorem jsonRecordListBytes_ok (rs : List JRecord) :
    BytesOk (jsonRecordListBytes rs) := by
  intro b hb
  rcases List.mem_cons.mp hb with h | h
  · omega
  rcases List.mem_append.mp h with h | h
  · refine joinWith_ok [44] _ (by intro x hx; simp at hx; omega) ?_ b h
    intro p hp
    simp only [List.mem_map] at hp
    obtain ⟨q, _, rfl⟩ := hp
    exact jsonRecordBytes_ok q
  · simp at h; omega

theorem serializeBytes_ok (st : VaultState) : BytesOk (serializeBytes st) := by
  intro b hb
  rcases List.mem_cons.mp hb with h | h
  · omega
  rcases List.mem_append.mp h with h | h
  · refine joinWith_ok [44] _ (by intro x hx; simp at hx; omega) ?_ b h
    intro p hp
    simp only [List.mem_cons, List.not_mem_nil, or_false] at hp
    rcases hp with h | h | h | h | h | h | h | h <;> subst h <;>
      intro x hx <;>
      rcases List.mem_append.mp hx with h2 | h2 <;>
      first
      | (rcases List.mem_append.mp h2 with h3 | h3;
         · exact jsonStringBytes_ok _ x h3
         · simp at h3; omega)
      | exact natDecimalBytes_ok _ x h2
      | exact jsonStringBytes_ok _ x h2
      | exact jsonRecordListBytes_ok _ x h2
  · simp at h; omega

-- ### Envelope roundtrip (claim C1 core)

theorem headerChain (rest : List Nat) :
    HEADER_V3_5 ++ rest = 66 :: 83 :: 84 :: 78 :: 4 :: rest := by
  simp [HEADER_V3_5]

theorem decryptCore_headered4 (data : List Nat) (pw : String)
    (h5 : data.length > 5) (htake : data.take 4 = [66, 83, 84, 78])
    (hget : data.getD 4 0 = 4) :
    decryptCore data pw =
      (match aesgcmDecrypt (derive_key_argon2 pw ((data.drop 5).take 16))
          ((data.drop 21).take 12) (data.drop 33) with
       | none => ((none, false), [.argon2])
       | some pt =>
           if pt ≠ [] then ((some (deframeBytes pt), false), [.argon2])
           else ((none, false), [.argon2])) := by
  have hcond : data.length > 5 ∧ data.take 4 = [66, 83, 84, 78] := ⟨h5, htake⟩
  rw [decryptCore]
  simp only [if_pos hcond, hget]
  norm_num

theorem bytesOk_append (a b : List Nat) (ha : BytesOk a) (hb : BytesOk b) :
    BytesOk (a ++ b) := by
  intro x hx
  rcases List.mem_append.mp hx with h | h
  · exact ha x h
  · exact hb x h

theorem frameBytes_ok (bs : List Nat) (h : BytesOk bs) :
    BytesOk (frameBytes bs) := by
  rw [frameBytes_eq]
  refine bytesOk_append _ _ (bytesOk_append _ _ (le4Bytes_ok _) h) ?_
  intro x hx
  rw [List.eq_of_mem_replicate hx]
  omega

theorem aesgcmEncrypt_ok (key iv pt : List Nat) (h : BytesOk pt) :
    BytesOk (aesgcmEncrypt key iv pt) :=
  bytesOk_append _ _ h (gcmTag_ok key iv pt)

/-- C1: for every vault state and every password (and any well-formed fresh
16-byte salt and 12-byte IV, with the canonical payload inside the `u32`
length range that `struct.pack` accepts), decrypting the blob produced by
`encrypt_blob` with the same password succeeds, is not marked legacy, and
returns exactly the canonical JSON serialization of the state. -/
theorem claim_C1_roundtrip (st : VaultState) (password : String)
    (salt iv : List Nat)
    (hsalt : salt.length = 16) (hsok : BytesOk salt)
    (hiv : iv.length = 12) (hivok : BytesOk iv)
    (hsize : (serializeBytes st).length < 4294967296) :
    decrypt_blob (encrypt_blob st password salt iv) password =
      (some (serializeBytes st), false) := by
  have hfr : BytesOk (frameBytes (serializeBytes st)) :=
    frameBytes_ok _ (serializeBytes_ok st)
  have hdata : BytesOk (HEADER_V3_5 ++ salt ++ iv ++
      aesgcmEncrypt (derive_key_argon2 password salt) iv
        (frameBytes (serializeBytes st))) := by
    refine bytesOk_append _ _ (bytesOk_append _ _ (bytesOk_append _ _ ?_ hsok) hivok)
      (aesgcmEncrypt_ok _ _ _ hfr)
    intro x hx
    simp only [HEADER_V3_5, List.mem_cons, List.not_mem_nil, or_false] at hx
    rcases hx with h | h | h | h | h <;> omega
  simp only [encrypt_blob, decrypt_blob]
  rw [base64_roundtrip _ hdata]
  have hctlen : (aesgcmEncrypt (derive_key_argon2 password salt) iv
      (frameBytes (serializeBytes st))).length =
      (frameBytes (serializeBytes st)).length + 16 := by
    simp [aesgcmEncrypt, gcmTag, prfBytes]
  have hassoc : HEADER_V3_5 ++ salt ++ iv ++
      aesgcmEncrypt (derive_key_argon2 password salt) iv
        (frameBytes (serializeBytes st)) =
      HEADER_V3_5 ++ (salt ++ (iv ++
        aesgcmEncrypt (derive_key_argon2 password salt) iv
          (frameBytes (serializeBytes st)))) := by
    simp [List.append_assoc]
  have h5 : (HEADER_V3_5 ++ salt ++ iv ++
      aesgcmEncrypt (derive_key_argon2 password salt) iv
        (frameBytes (serializeBytes st))).length > 5 := by
    simp [HEADER_V3_5]
    omega
  have htake : (HEADER_V3_5 ++ salt ++ iv ++
      aesgcmEncrypt (derive_key_argon2 password salt) iv
        (frameBytes (serializeBytes st))).take 4 = [66, 83, 84, 78] := by
    rw [hassoc, headerChain]
    rfl
  have hget : (HEADER_V3_5 ++ salt ++ iv ++
      aesgcmEncrypt (derive_key_argon2 password salt) iv
        (frameBytes (serializeBytes st))).getD 4 0 = 4 := by
    rw [hassoc, headerChain]
    rfl
  change (decryptCore _ password).1 = _
  rw [decryptCore_headered4 _ _ h5 htake hget]
  have hH5 : HEADER_V3_5.length = 5 := rfl
  have hdrop5 : ((HEADER_V3_5 ++ salt ++ iv ++
      aesgcmEncrypt (derive_key_argon2 password salt) iv
        (frameBytes (serializeBytes st))).drop 5).take 16 = salt := by
    rw [hassoc, List.drop_left' hH5, List.take_left' hsalt]
  have hdrop21 : ((HEADER_V3_5 ++ salt ++ iv ++
      aesgcmEncrypt (derive_key_argon2 password salt) iv
        (frameBytes (serializeBytes st))).drop 21).take 12 = iv := by
    have hg : HEADER_V3_5 ++ salt ++ iv ++
        aesgcmEncrypt (derive_key_argon2 password salt) iv
          (frameBytes (serializeBytes st)) =
        (HEADER_V3_5 ++ salt) ++ (iv ++
          aesgcmEncrypt (derive_key_argon2 password salt) iv
            (frameBytes (serializeBytes st))) := by
      simp [List.append_assoc]
    have h21 : (HEADER_V3_5 ++ salt).length = 21 := by simp [HEADER_V3_5]; omega
    rw [hg, List.drop_left' h21, List.take_left' hiv]
  have hdrop33 : (HEADER_V3_5 ++ salt ++ iv ++
      aesgcmEncrypt (derive_key_argon2 password salt) iv
        (frameBytes (serializeBytes st))).drop 33 =
      aesgcmEncrypt (derive_key_argon2 password salt) iv
        (frameBytes (serializeBytes st)) := by
    have h33 : (HEADER_V3_5 ++ salt ++ iv).length = 33 := by
      simp [HEADER_V3_5]; omega
    exact List.drop_left' h33
  rw [hdrop5, hdrop21, hdrop33, aesgcm_roundtrip]
  have hne : frameBytes (serializeBytes st) ≠ [] := by
    have := frameBytes_len_ge (serializeBytes st)
    intro hcontra
    rw [hcontra] at this
    simp at this
  simp only [if_pos hne]
  rw [deframe_frame _ hsize]

/-- C1 witness: the round-trip evaluated at a concrete state, password,
salt and IV. -/
theorem claim_C1_roundtrip_witness :
    decrypt_blob
      (encrypt_blob { entropy := "ff00" } "correct horse"
        (List.replicate 16 0) (List.replicate 12 0)) "correct horse" =
      (some (serializeBytes { entropy := "ff00" }), false) :=
  claim_C1_roundtrip { entropy := "ff00" } "correct horse"
    (List.replicate 16 0) (List.replicate 12 0)
    (by decide) (by decide) (by decide) (by decide) (by decide)

-- ### Failure uniformity (claim C8)

set_option maxHeartbeats 1000000 in
theorem decryptCore_failure (data : List Nat) (pw : String)
    (h : ((decryptCore data pw).1).1 = none) :
    (decryptCore data pw).1 = (none, false) := by
  revert h
  unfold decryptCore
  repeat' split
  all_goals
    try (cases hA : (aesgcmDecrypt (derive_key_argon2 pw (List.take 16
      (List.drop 5 data))) (List.take 12 (List.drop 21 data)) (List.drop 33 data)))
  all_goals
    try (cases hB : (aesgcmDecrypt (derive_key_pbkdf2 pw (List.take 16
      (List.drop 5 data)) true LEGACY_ITERATIONS_V2) (List.take 12
      (List.drop 21 data)) (List.drop 33 data)))
  all_goals
    try (cases hC : (aesgcmDecrypt (derive_key_pbkdf2 pw (List.take 16 data)
      true LEGACY_ITERATIONS_V2) (List.take 12 (List.drop 16 data))
      (List.drop 28 data)))
  all_goals
    try (cases hD : (aesgcmDecrypt (derive_key_pbkdf2 pw (List.take 16 data)
      false LEGACY_ITERATIONS_V1) (List.take 12 (List.drop 16 data))
      (List.drop 28 data)))
  all_goals intro h
  all_goals simp_all [apply_ite]

/-- C8: whenever no decryption path succeeds (the result carries no
plaintext), `decrypt_blob` returns exactly `(None, False)` — one
undistinguishable failure value for wrong passwords, corrupt buffers,
non-base64 text and short inputs alike.  (The model function is total: every
Python exception path is the same `(None, False)` return.) -/
theorem claim_C8_failure_shape (blob : String) (password : String)
    (h : (decrypt_blob blob password).1 = none) :
    decrypt_blob blob password = (none, false) := by
  rw [decrypt_blob] at h ⊢
  cases hdec : base64DecodeStr blob with
  | none => rfl
  | some data =>
      rw [hdec] at h
      exact decryptCore_failure data password h

/-- C8 witness: a non-base64 blob and a 5-byte valid-base64 blob both fail
into `(None, False)`, via the theorem. -/
theorem claim_C8_failure_shape_witness :
    decrypt_blob "!!!" "pw" = (none, false) ∧
    decrypt_blob (base64EncodeStr [66, 83, 84, 78, 4]) "pw" = (none, false) :=
  ⟨claim_C8_failure_shape "!!!" "pw" (by decide),
   claim_C8_failure_shape (base64EncodeStr [66, 83, 84, 78, 4]) "pw" (by decide)⟩

-- ### Header dispatch (claim C2)

theorem decryptCore_paths_headered (data : List Nat) (pw : String)
    (h5 : data.length > 5) (htake : data.take 4 = [66, 83, 84, 78])
    (hv : data.getD 4 0 = 2 ∨ data.getD 4 0 = 3 ∨ data.getD 4 0 = 4) :
    (decryptCore data pw).2 = [.argon2] ∨ (decryptCore data pw).2 = [.pbkdf2V2] := by
  have hcond : data.length > 5 ∧ data.take 4 = [66, 83, 84, 78] := ⟨h5, htake⟩
  rw [decryptCore]
  simp only [if_pos hcond]
  rcases hv with h | h | h <;> rw [h] <;> norm_num <;>
    repeat' split <;> try simp

/-- C2, amended: a blob whose base64-decoded bytes begin with `BSTN`, have
length above 5, and carry a recognized version byte (2, 3 or 4) commits
`decrypt_blob` to the headered dispatch: the headerless legacy PBKDF2 paths
are never attempted.  (The original claim's "any fifth byte" fails: an
unrecognized fifth byte falls through to the legacy ladder — see the
counterexample.) -/
theorem claim_C2_header_commit (blob : String) (data : List Nat)
    (password : String) (hdec : base64DecodeStr blob = some data)
    (h5 : data.length > 5) (htake : data.take 4 = [66, 83, 84, 78])
    (hv : data.getD 4 0 = 2 ∨ data.getD 4 0 = 3 ∨ data.getD 4 0 = 4) :
    KdfPath.legacyV1 ∉ decryptPaths blob password ∧
    KdfPath.legacyV0 ∉ decryptPaths blob password := by
  rw [decryptPaths, hdec]
  change KdfPath.legacyV1 ∉ (decryptCore data password).2 ∧
    KdfPath.legacyV0 ∉ (decryptCore data password).2
  rcases decryptCore_paths_headered data password h5 htake hv with h | h <;>
    rw [h] <;> simp

/-- C2 counterexample: the 28-byte buffer `"BSTN" 0x00 ∥ 23 zero bytes`
begins with the `BSTN` prefix, yet `decrypt_blob` attempts both headerless
legacy paths on it (`version` stays 1 for the unrecognized fifth byte), so
the claim's "any fifth byte" quantification is false on the code. -/
theorem claim_C2_counterexample :
    ([66, 83, 84, 78, 0] ++ List.replicate 23 0).take 4 = [66, 83, 84, 78] ∧
    base64DecodeStr (base64EncodeStr ([66, 83, 84, 78, 0] ++ List.replicate 23 0)) =
      some ([66, 83, 84, 78, 0] ++ List.replicate 23 0) ∧
    KdfPath.legacyV1 ∈
      decryptPaths (base64EncodeStr ([66, 83, 84, 78, 0] ++ List.replicate 23 0)) "pw" ∧
    KdfPath.legacyV0 ∈
      decryptPaths (base64EncodeStr ([66, 83, 84, 78, 0] ++ List.replicate 23 0)) "pw" := by
  refine ⟨by decide, ?_, ?_, ?_⟩ <;> decide

/-- C2 witness: the amended theorem applied at a concrete V3.5-headered
blob. -/
theorem claim_C2_header_commit_witness :
    KdfPath.legacyV1 ∉
      decryptPaths (base64EncodeStr ([66, 83, 84, 78, 4] ++ List.replicate 40 0)) "pw" :=
  (claim_C2_header_commit
    (base64EncodeStr ([66, 83, 84, 78, 4] ++ List.replicate 40 0))
    ([66, 83, 84, 78, 4] ++ List.replicate 40 0) "pw"
    (by decide) (by decide) (by decide) (by decide)).1

-- ### Transmuter (claim C6)

theorem chaos_foldl_stall (pool : List Char) (limit tlen : Nat)
    (l : List Nat) (acc : List Char) (h : ¬ acc.length < tlen) :
    l.foldl
      (fun acc b =>
        if acc.length < tlen ∧ b < limit then
          acc ++ [pool.getD (b % pool.length) 'a']
        else acc) acc = acc := by
  induction l generalizing acc with
  | nil => rfl
  | cons b rest ih =>
      rw [List.foldl_cons, if_neg (by tauto)]
      exact ih acc h

theorem chaosLoop_eq_foldl (pool : List Char) (limit tlen : Nat)
    (l : List Nat) (acc : List Char) :
    chaosLoop pool limit tlen l acc =
    l.foldl
      (fun acc b =>
        if acc.length < tlen ∧ b < limit then
          acc ++ [pool.getD (b % pool.length) 'a']
        else acc) acc := by
  induction l generalizing acc with
  | nil => rfl
  | cons b rest ih =>
      rw [chaosLoop, List.foldl_cons]
      by_cases hlen : acc.length < tlen
      · rw [if_pos hlen]
        by_cases hb : b < limit
        · rw [if_pos hb, if_pos ⟨hlen, hb⟩, ih]
        · rw [if_neg hb, if_neg (by tauto), ih]
      · rw [if_neg hlen, if_neg (by tauto), chaos_foldl_stall _ _ _ _ _ hlen]

/-- C6: `ChaosEngine.transmute` coincides with the reference definition
written from the spec (salt `"BASTION_GENERATOR_V2::" ∥ lower(service) ∥
"::" ∥ lower(username) ∥ "::v" ∥ decimal(version)`; a `length * 32`-byte
PBKDF2-HMAC-SHA512 flux at 210,000 iterations keyed by the entropy string;
left-to-right rejection sampling over the pool with
`limit = 256 - (256 mod |pool|)`), and in particular is a pure
deterministic function of its six inputs. -/
theorem claim_C6_transmute_matches_spec (entropy service username : String)
    (version length : Nat) (symbols : Bool) :
    transmute entropy service username version length symbols =
    transmuteSpec entropy service username version length symbols := by
  simp only [transmute, transmuteSpec, GENERATOR_ITERATIONS]
  exact congrArg String.mk (chaosLoop_eq_foldl _ _ _ _ _)

-- ### Locker registry (claim C5)

theorem dropWhile_of_forall_false {α : Type} (p : α → Bool) (l : List α)
    (h : ∀ c ∈ l, p c = false) : l.dropWhile p = l := by
  cases l with
  | nil => rfl
  | cons c cs => rw [List.dropWhile_cons, h c (by simp)]; simp

theorem stripStr_eq_self (s : String)
    (h : ∀ c ∈ s.data, isPyWsChar c = false) : stripStr s = s := by
  apply String.ext
  show ((s.data.dropWhile isPyWsChar).reverse.dropWhile isPyWsChar).reverse = s.data
  rw [dropWhile_of_forall_false _ _ h]
  rw [dropWhile_of_forall_false _ _ (by intro c hc; exact h c (List.mem_reverse.mp hc))]
  exact List.reverse_reverse _

theorem padId36_of_len36 (fid : String) (h : fid.length = 36) :
    padId36 fid = fid := by
  apply String.ext
  rw [padId36, String.data_append]
  show fid.data ++ (List.replicate (36 - fid.length) ' ') = fid.data
  rw [h]
  simp

/-- C5 (code bug): the id written into an encrypted file's header is the
36-hex-char `file_id` drawn inside `LockerEngine.encrypt_file`, but the
registry entry `menu_locker` appends to the vault's `locker` uses a fresh
`secrets.token_hex(8)` (16 hex chars) as `FileKey.id`.  The two can never be
equal (their lengths differ), so the registry lookup by header id during
decrypt finds nothing — contradicting the spec's stated invariant that
`FileKey.id` matches the header id and enables the lookup. -/
theorem claim_C5_registry_id_mismatch (data key iv : List Nat)
    (file_id regId label : String) (ts : Nat)
    (hfid : file_id.length = 36)
    (hfw : ∀ c ∈ file_id.data, isPyWsChar c = false)
    (hreg : regId.length = 16) :
    lockerHeaderId (encrypt_file data file_id key iv).1 = some file_id ∧
    regId ≠ file_id ∧
    lockerLookupKey
      [lockerRegisterEntry regId label (encrypt_file data file_id key iv).2 ts]
      file_id = none := by
  have hne : regId ≠ file_id := by
    intro h
    rw [h] at hreg
    omega
  have hidlen : (strBytes (padId36 file_id)).length = 36 := by
    rw [padId36_of_len36 _ hfid]
    simpa [strBytes] using hfid
  refine ⟨?_, hne, ?_⟩
  · rw [encrypt_file]
    simp only
    have hml : LOCKER_MAGIC.length = 8 := rfl
    have hassoc : LOCKER_MAGIC ++ strBytes (padId36 file_id) ++ iv ++
        aesgcmEncrypt key iv data =
        LOCKER_MAGIC ++ (strBytes (padId36 file_id) ++ (iv ++
          aesgcmEncrypt key iv data)) := by
      simp [List.append_assoc]
    have hlen : (LOCKER_MAGIC ++ strBytes (padId36 file_id) ++ iv ++
        aesgcmEncrypt key iv data).length ≥ 44 := by
      simp only [List.length_append, hml, hidlen]
      omega
    have htake : (LOCKER_MAGIC ++ strBytes (padId36 file_id) ++ iv ++
        aesgcmEncrypt key iv data).take 8 = LOCKER_MAGIC := by
      rw [hassoc]
      exact List.take_left' hml
    have hid : ((LOCKER_MAGIC ++ strBytes (padId36 file_id) ++ iv ++
        aesgcmEncrypt key iv data).drop 8).take 36 = strBytes (padId36 file_id) := by
      rw [hassoc, List.drop_left' hml, List.take_left' hidlen]
    rw [lockerHeaderId, if_pos ⟨hlen, htake⟩, hid]
    rw [padId36_of_len36 _ hfid]
    have hmapmap : (strBytes file_id).map Char.ofNat = file_id.data := by
      rw [strBytes, List.map_map]
      have : (Char.ofNat ∘ Char.toNat) = id := funext Char.ofNat_toNat
      rw [this, List.map_id]
    rw [hmapmap]
    rw [show (⟨file_id.data⟩ : String) = file_id from rfl]
    rw [stripStr_eq_self _ hfw]
  · rw [lockerLookupKey, lockerRegisterEntry]
    simp [List.find?, hne]

/-- C5 witness: the mismatch evaluated at concrete ids of the shapes
`token_hex(18)` and `token_hex(8)` produce. -/
theorem claim_C5_registry_id_mismatch_witness :
    lockerHeaderId
      (encrypt_file [1, 2, 3] "0123456789abcdef0123456789abcdef0123"
        (List.replicate 32 7) (List.replicate 12 9)).1 =
      some "0123456789abcdef0123456789abcdef0123" ∧
    "00112233aabbccdd" ≠ "0123456789abcdef0123456789abcdef0123" ∧
    lockerLookupKey
      [lockerRegisterEntry "00112233aabbccdd" "doc.pdf"
        (encrypt_file [1, 2, 3] "0123456789abcdef0123456789abcdef0123"
          (List.replicate 32 7) (List.replicate 12 9)).2 1700000000000]
      "0123456789abcdef0123456789abcdef0123" = none :=
  claim_C5_registry_id_mismatch [1, 2, 3] (List.replicate 32 7)
    (List.replicate 12 9) "0123456789abcdef0123456789abcdef0123"
    "00112233aabbccdd" "doc.pdf" 1700000000000
    (by decide) (by decide) (by decide)

-- ### Save-file behaviour (claims C9, C3)

theorem save_file_state (m : VaultManager) (st : VaultState) (pw : String)
    (now : Nat) (salt iv : List Nat)
    (hst : m.active_state = some st) (hpw : m.active_password = some pw)
    (hne : pw ≠ "") :
    (save_file m now salt iv).1.active_state =
      some { st with lastModified := now, version := st.version + 1 } ∧
    (save_file m now salt iv).1.active_password = some pw := by
  rw [save_file]
  simp only [hst, hpw]
  rw [if_neg hne]
  split <;> simp [hpw]

theorem save_file_of_unlocked (m : VaultManager) (st : VaultState)
    (pw : String) (now : Nat) (salt iv : List Nat)
    (hst : m.active_state = some st) (hpw : m.active_password = some pw)
    (hne : pw ≠ "") (hidx : m.active_blob_index ≥ 0) :
    (save_file m now salt iv).1 =
      { m with
        active_state := some
          { st with lastModified := now, version := st.version + 1 },
        blobs := m.blobs.set m.active_blob_index.toNat
          (encrypt_blob
            { st with lastModified := now, version := st.version + 1 }
            pw salt iv) } := by
  rw [save_file]
  simp only [hst, hpw]
  rw [if_neg hne, if_pos hidx]

/-- C9, amended: across two successive `save_file` calls on an unlocked
vault with a non-empty active password, the persisted state's `version`
strictly increases, and `lastModified` strictly increases provided the
millisecond clock reading strictly advanced between the saves.  (As
written — for every password and without the clock condition — the claim
fails: see the counterexample for the equal-clock and empty-password
cases.) -/
theorem claim_C9_monotonic_saves (m : VaultManager) (st : VaultState)
    (pw : String) (t1 t2 : Nat) (s1 i1 s2 i2 : List Nat)
    (hst : m.active_state = some st) (hpw : m.active_password = some pw)
    (hne : pw ≠ "") (ht : t1 < t2) :
    ∃ st1 st2,
      (save_file m t1 s1 i1).1.active_state = some st1 ∧
      (save_file (save_file m t1 s1 i1).1 t2 s2 i2).1.active_state = some st2 ∧
      st1.version < st2.version ∧ st1.lastModified < st2.lastModified := by
  obtain ⟨h1s, h1p⟩ := save_file_state m st pw t1 s1 i1 hst hpw hne
  obtain ⟨h2s, h2p⟩ := save_file_state (save_file m t1 s1 i1).1 _ pw t2 s2 i2 h1s h1p hne
  exact ⟨_, _, h1s, h2s, by simp, by simpa using ht⟩

/-- C9 witness: the amended statement at a concrete vault, password and
advancing clock. -/
theorem claim_C9_monotonic_saves_witness :
    ∃ st1 st2,
      (save_file ⟨[], some { entropy := "aa" }, some "p", -1⟩ 5
        (List.replicate 16 0) (List.replicate 12 0)).1.active_state = some st1 ∧
      (save_file (save_file ⟨[], some { entropy := "aa" }, some "p", -1⟩ 5
        (List.replicate 16 0) (List.replicate 12 0)).1 6
        (List.replicate 16 1) (List.replicate 12 1)).1.active_state = some st2 ∧
      st1.version < st2.version ∧ st1.lastModified < st2.lastModified :=
  claim_C9_monotonic_saves ⟨[], some { entropy := "aa" }, some "p", -1⟩
    { entropy := "aa" } "p" 5 6 (List.replicate 16 0) (List.replicate 12 0)
    (List.replicate 16 1) (List.replicate 12 1) rfl rfl (by decide) (by decide)

/-- C9 counterexample: two successive saves in the same millisecond keep
`lastModified` equal (not strictly greater), and a save under an empty
active password leaves the persisted state (and the whole manager)
untouched, so `version` does not increase either — both contradict the
claim as stated. -/
theorem claim_C9_counterexample :
    ((save_file (save_file ⟨[], some { entropy := "aa" }, some "p", -1⟩ 5
        (List.replicate 16 0) (List.replicate 12 0)).1 5
        (List.replicate 16 0) (List.replicate 12 0)).1.active_state.map
          VaultState.lastModified =
      (save_file ⟨[], some { entropy := "aa" }, some "p", -1⟩ 5
        (List.replicate 16 0) (List.replicate 12 0)).1.active_state.map
          VaultState.lastModified) ∧
    (save_file ⟨["x"], some { entropy := "aa" }, some "", 0⟩ 5
      (List.replicate 16 0) (List.replicate 12 0)).1 =
      ⟨["x"], some { entropy := "aa" }, some "", 0⟩ := by
  constructor
  · obtain ⟨h1s, h1p⟩ := save_file_state
      ⟨[], some { entropy := "aa" }, some "p", -1⟩ { entropy := "aa" } "p" 5
      (List.replicate 16 0) (List.replicate 12 0) rfl rfl (by decide)
    obtain ⟨h2s, _⟩ := save_file_state _ _ "p" 5
      (List.replicate 16 0) (List.replicate 12 0) h1s h1p (by decide)
    rw [h1s, h2s]
    simp
  · rfl

-- ### Unlock failure is mutation-free (claim C10)

theorem unlockGo_fail_unchanged (pw : String) (now : Nat)
    (salt iv : List Nat) (m : VaultManager) (bl : List String) (idx : Nat)
    (m' : VaultManager) (w : Option String)
    (h : unlockGo pw now salt iv m idx bl = .ok (m', w, false)) :
    m' = m ∧ w = none := by
  induction bl generalizing idx with
  | nil =>
      rw [unlockGo] at h
      simp only [Except.ok.injEq, Prod.mk.injEq] at h
      exact ⟨h.1.symm, h.2.1.symm⟩
  | cons b rest ih =>
      rw [unlockGo] at h
      split at h
      · split at h
        · split at h
          · exact absurd h (by simp)
          · split at h <;> simp at h
        · exact ih (idx + 1) h
      · exact ih (idx + 1) h

/-- C10: whenever `unlock` returns `False` (no blob decrypts), the manager
is left exactly as it was — `blobs`, `active_state`, `active_password` and
`active_blob_index` all keep their prior values — and no file write occurs
(the returned written-file component is `none`). -/
theorem claim_C10_failed_unlock_unchanged (m : VaultManager) (password : String)
    (nowMs : Nat) (salt iv : List Nat) (m' : VaultManager) (w : Option String)
    (h : unlock m password nowMs salt iv = .ok (m', w, false)) :
    m' = m ∧ w = none :=
  unlockGo_fail_unchanged password nowMs salt iv m m.blobs 0 m' w h

/-- C10 witness: a vault whose single blob is not even base64 fails to
unlock and the manager value is returned untouched with no write. -/
theorem claim_C10_failed_unlock_unchanged_witness :
    (⟨["!!"], none, none, -1⟩ : VaultManager) =
      (⟨["!!"], none, none, -1⟩ : VaultManager) ∧ (none : Option String) = none :=
  claim_C10_failed_unlock_unchanged ⟨["!!"], none, none, -1⟩ "pw" 0 [] []
    ⟨["!!"], none, none, -1⟩ none (by rfl)

-- ### List getD helpers (for the blob-slot reasoning of claim C3)

theorem getD_set_self {α : Type} (l : List α) (i : Nat) (a d : α)
    (h : i < l.length) : (l.set i a).getD i d = a := by
  rw [List.getD, List.get?_set_eq_of_lt a h, Option.getD_some]

theorem getD_set_other {α : Type} (l : List α) (i j : Nat) (a d : α)
    (h : i ≠ j) : (l.set i a).getD j d = l.getD j d := by
  rw [List.getD, List.get?_set_ne a l h, List.getD]

theorem getD_append_lt {α : Type} (l l2 : List α) (j : Nat) (d : α)
    (h : j < l.length) : (l ++ l2).getD j d = l.getD j d := by
  rw [List.getD, List.get?_append h, List.getD]

theorem getD_append_len {α : Type} (l : List α) (x d : α) :
    (l ++ [x]).getD l.length d = x := by
  rw [List.getD, List.get?_append_right (le_refl _)]
  simp

theorem getD_append_gt {α : Type} (l : List α) (x d : α) (j : Nat)
    (h : l.length < j) : (l ++ [x]).getD j d = d := by
  rw [List.getD, List.get?_append_right (by omega)]
  rw [List.get?_eq_none.mpr (by simp; omega)]
  rfl

-- ### Every written blob carries the V3.5 header (claim C3 support)

theorem encrypt_blob_decode (st : VaultState) (pw : String)
    (salt iv : List Nat) (hsok : BytesOk salt) (hivok : BytesOk iv) :
    base64DecodeStr (encrypt_blob st pw salt iv) =
      some (HEADER_V3_5 ++ salt ++ iv ++
        aesgcmEncrypt (derive_key_argon2 pw salt) iv
          (frameBytes (serializeBytes st))) := by
  have hdata : BytesOk (HEADER_V3_5 ++ salt ++ iv ++
      aesgcmEncrypt (derive_key_argon2 pw salt) iv
        (frameBytes (serializeBytes st))) := by
    refine bytesOk_append _ _
      (bytesOk_append _ _ (bytesOk_append _ _ ?_ hsok) hivok)
      (aesgcmEncrypt_ok _ _ _ (frameBytes_ok _ (serializeBytes_ok st)))
    intro x hx
    simp only [HEADER_V3_5, List.mem_cons, List.not_mem_nil, or_false] at hx
    rcases hx with h | h | h | h | h <;> omega
  simp only [encrypt_blob]
  exact base64_roundtrip _ hdata

theorem encrypt_blob_take5 (st : VaultState) (pw : String)
    (salt iv : List Nat) :
    (HEADER_V3_5 ++ salt ++ iv ++
      aesgcmEncrypt (derive_key_argon2 pw salt) iv
        (frameBytes (serializeBytes st))).take 5 = HEADER_V3_5 := by
  have hassoc : HEADER_V3_5 ++ salt ++ iv ++
      aesgcmEncrypt (derive_key_argon2 pw salt) iv
        (frameBytes (serializeBytes st)) =
      HEADER_V3_5 ++ (salt ++ (iv ++
        aesgcmEncrypt (derive_key_argon2 pw salt) iv
          (frameBytes (serializeBytes st)))) := by
    simp [List.append_assoc]
  rw [hassoc, headerChain]
  rfl

theorem encrypt_blob_headered (st : VaultState) (pw : String)
    (salt iv : List Nat) (hsok : BytesOk salt) (hivok : BytesOk iv) :
    ∃ data, base64DecodeStr (encrypt_blob st pw salt iv) = some data ∧
      data.take 5 = HEADER_V3_5 :=
  ⟨_, encrypt_blob_decode st pw salt iv hsok hivok,
   encrypt_blob_take5 st pw salt iv⟩

-- ### Successful unlock characterization (claim C3 support)

theorem unlockGo_success (pw : String) (now : Nat) (salt iv : List Nat)
    (m : VaultManager) (bl : List String) (idx : Nat)
    (m' : VaultManager) (w : Option String)
    (h : unlockGo pw now salt iv m idx bl = .ok (m', w, true)) :
    ∃ j st js leg, j < bl.length ∧
      decrypt_blob (bl.getD j "") pw = (some js, leg) ∧ js ≠ [] ∧
      parseVaultJson js = .ok st ∧
      (if leg then
        m' = (save_file
          { m with active_state := some st, active_password := some pw,
                   active_blob_index := ((idx + j : Nat) : Int) } now salt iv).1 ∧
        w = some (save_file
          { m with active_state := some st, active_password := some pw,
                   active_blob_index := ((idx + j : Nat) : Int) } now salt iv).2
      else
        m' = { m with active_state := some st, active_password := some pw,
                      active_blob_index := ((idx + j : Nat) : Int) } ∧
        w = none) := by
  induction bl generalizing idx with
  | nil => rw [unlockGo] at h; simp at h
  | cons b rest ih =>
      rw [unlockGo] at h
      split at h
      next js leg heq =>
        split at h
        next hjs =>
          split at h
          next e hp => exact absurd h (by simp)
          next st hp =>
            split at h
            next hleg =>
              simp only [Except.ok.injEq, Prod.mk.injEq] at h
              refine ⟨0, st, js, leg, by simp, by simpa using heq, hjs, hp, ?_⟩
              rw [if_pos hleg]
              simp only [Nat.add_zero]
              exact ⟨h.1.symm, h.2.1.symm⟩
            next hleg =>
              simp only [Except.ok.injEq, Prod.mk.injEq] at h
              refine ⟨0, st, js, leg, by simp, by simpa using heq, hjs, hp, ?_⟩
              rw [if_neg hleg]
              simp only [Nat.add_zero]
              exact ⟨h.1.symm, h.2.1.symm⟩
        next hjs =>
          obtain ⟨j, st, js', leg', hj, hd, hjs', hp, hb⟩ := ih (idx + 1) h
          have hidx : idx + 1 + j = idx + (j + 1) := by omega
          rw [hidx] at hb
          exact ⟨j + 1, st, js', leg', by simpa using hj, by simpa using hd,
                 hjs', hp, hb⟩
      next r heq =>
        obtain ⟨j, st, js', leg', hj, hd, hjs', hp, hb⟩ := ih (idx + 1) h
        have hidx : idx + 1 + j = idx + (j + 1) := by omega
        rw [hidx] at hb
        exact ⟨j + 1, st, js', leg', by simpa using hj, by simpa using hd,
               hjs', hp, hb⟩

theorem getD_oob {α : Type} (l : List α) (j : Nat) (d : α)
    (h : l.length ≤ j) : l.getD j d = d := by
  rw [List.getD, List.get?_eq_none.mpr h]
  rfl

/-- C3, amended: for every vault and every non-empty password, when
`unlock` succeeds on a blob whose decryption is tagged legacy, the manager
immediately re-encrypts and rewrites the vault (a write occurs), and the
rewritten blob at the same slot index decodes to bytes beginning with the
`BSTN 0x04` header; moreover no `save_file` write ever changes a blob slot
to anything but a `BSTN 0x04`-headered blob (downgrade protection).  (As
stated — for every password — the claim fails for the empty password, whose
Python falsiness skips the re-encryption: see the counterexample.) -/
theorem claim_C3_legacy_upgrade :
    (∀ (m : VaultManager) (pw : String) (now : Nat) (salt iv : List Nat)
        (m' : VaultManager) (w : Option String),
      BytesOk salt → BytesOk iv → pw ≠ "" →
      unlock m pw now salt iv = .ok (m', w, true) →
      (decrypt_blob (m.blobs.getD m'.active_blob_index.toNat "") pw).2 = true →
      (∃ data,
        base64DecodeStr (m'.blobs.getD m'.active_blob_index.toNat "") =
          some data ∧ data.take 5 = HEADER_V3_5) ∧ w ≠ none) ∧
    (∀ (m : VaultManager) (now : Nat) (salt iv : List Nat) (j : Nat),
      BytesOk salt → BytesOk iv →
      (save_file m now salt iv).1.blobs.getD j "" = m.blobs.getD j "" ∨
      ∃ data,
        base64DecodeStr ((save_file m now salt iv).1.blobs.getD j "") =
          some data ∧ data.take 5 = HEADER_V3_5) := by
  constructor
  · intro m pw now salt iv m' w hsok hivok hpw hunlock hleg
    obtain ⟨j, st, js, leg, hj, hd, hjs, hp, hb⟩ :=
      unlockGo_success pw now salt iv m m.blobs 0 m' w hunlock
    simp only [Nat.zero_add] at hb
    by_cases hlegb : leg = true
    · rw [if_pos hlegb] at hb
      obtain ⟨hm', hw⟩ := hb
      have hsave := save_file_of_unlocked
        { m with active_state := some st, active_password := some pw,
                 active_blob_index := ((j : Nat) : Int) }
        st pw now salt iv rfl rfl hpw (by simp)
      have htn : m'.active_blob_index.toNat = j := by
        rw [hm', hsave]
        simp
      have hblob : m'.blobs.getD j "" =
          encrypt_blob
            { st with lastModified := now, version := st.version + 1 }
            pw salt iv := by
        rw [hm', hsave]
        show (m.blobs.set (((j : Nat) : Int)).toNat _).getD j "" = _
        rw [show (((j : Nat) : Int)).toNat = j by simp]
        exact getD_set_self _ _ _ _ hj
      refine ⟨?_, ?_⟩
      · rw [htn, hblob]
        exact encrypt_blob_headered _ _ _ _ hsok hivok
      · rw [hw]
        simp
    · rw [if_neg hlegb] at hb
      obtain ⟨hm', hw⟩ := hb
      have htn : m'.active_blob_index.toNat = j := by
        rw [hm']
        simp
      rw [htn] at hleg
      rw [hd] at hleg
      exact absurd hleg hlegb
  · intro m now salt iv j hsok hivok
    rcases hst : m.active_state with _ | st
    · left
      rw [save_file]
      simp [hst]
    rcases hpw : m.active_password with _ | pw
    · left
      rw [save_file]
      simp [hst, hpw]
    by_cases hpe : pw = ""
    · left
      rw [save_file]
      simp [hst, hpw, hpe]
    by_cases hidx : m.active_blob_index ≥ 0
    · rw [save_file_of_unlocked m st pw now salt iv hst hpw hpe hidx]
      show (m.blobs.set m.active_blob_index.toNat
          (encrypt_blob
            { st with lastModified := now, version := st.version + 1 }
            pw salt iv)).getD j "" = m.blobs.getD j "" ∨
        ∃ data, base64DecodeStr ((m.blobs.set m.active_blob_index.toNat
          (encrypt_blob
            { st with lastModified := now, version := st.version + 1 }
            pw salt iv)).getD j "") = some data ∧
          List.take 5 data = HEADER_V3_5
      by_cases hji : m.active_blob_index.toNat = j
      · by_cases hjl : j < m.blobs.length
        · right
          rw [hji, getD_set_self _ _ _ _ hjl]
          exact encrypt_blob_headered _ _ _ _ hsok hivok
        · left
          rw [List.set_eq_of_length_le (by omega)]
      · left
        exact getD_set_other _ _ _ _ _ hji
    · have happ : (save_file m now salt iv).1 =
          { m with
            active_state := some
              { st with lastModified := now, version := st.version + 1 },
            blobs := m.blobs ++ [encrypt_blob
              { st with lastModified := now, version := st.version + 1 }
              pw salt iv],
            active_blob_index := (m.blobs.length : Int) } := by
        rw [save_file]
        simp only [hst, hpw]
        rw [if_neg hpe, if_neg hidx]
      rw [happ]
      show (m.blobs ++ [encrypt_blob
          { st with lastModified := now, version := st.version + 1 }
          pw salt iv]).getD j "" = m.blobs.getD j "" ∨
        ∃ data, base64DecodeStr ((m.blobs ++ [encrypt_blob
          { st with lastModified := now, version := st.version + 1 }
          pw salt iv]).getD j "") = some data ∧
          List.take 5 data = HEADER_V3_5
      rcases lt_trichotomy j m.blobs.length with hlt | heqq | hgt
      · left
        exact getD_append_lt _ _ _ _ hlt
      · right
        rw [heqq, getD_append_len]
        exact encrypt_blob_headered _ _ _ _ hsok hivok
      · left
        rw [getD_append_gt _ _ _ _ hgt, getD_oob _ _ _ (by omega)]

set_option maxRecDepth 40000 in
/-- C3 witness: a concrete legacy V1 blob unlocked with password `"p"` is
rewritten in place with a `BSTN 0x04` header and a write occurs; a concrete
`save_file` leaves slot 0 either untouched or V3.5-headered. -/
theorem claim_C3_legacy_upgrade_witness :
    ((∃ data, base64DecodeStr
        (wUnlockRes.1.blobs.getD wUnlockRes.1.active_blob_index.toNat "") =
          some data ∧ data.take 5 = HEADER_V3_5) ∧ wUnlockRes.2.1 ≠ none) ∧
    ((save_file wManager 5 wSalt16 wIv12).1.blobs.getD 0 "" =
        wManager.blobs.getD 0 "" ∨
      ∃ data, base64DecodeStr
        ((save_file wManager 5 wSalt16 wIv12).1.blobs.getD 0 "") =
          some data ∧ data.take 5 = HEADER_V3_5) :=
  ⟨claim_C3_legacy_upgrade.1 wManager "p" 5 (List.replicate 16 3)
      (List.replicate 12 4) wUnlockRes.1 wUnlockRes.2.1
      (by decide) (by decide) (by decide) (by rfl) (by rfl),
   claim_C3_legacy_upgrade.2 wManager 5 wSalt16 wIv12 0 (by decide) (by decide)⟩

set_option maxRecDepth 10000 in
/-- C3 counterexample: under the empty password (which `save_file`'s
truthiness guard treats as "locked"), unlocking a legacy blob succeeds and
reports legacy, yet the blob at the active slot is left as the original
headerless legacy blob — no upgrade happens, contradicting the claim as
stated for every password. -/
theorem claim_C3_counterexample :
    wUnlockResE.2.2 = true ∧
    (decrypt_blob (wManagerE.blobs.getD 0 "") "").2 = true ∧
    wUnlockResE.1.active_blob_index = 0 ∧
    wUnlockResE.1.blobs.getD 0 "" = wLegacyBlobE ∧
    (base64DecodeStr wLegacyBlobE).map (List.take 4) ≠ some [66, 83, 84, 78] :=
  ⟨by decide, by decide, by decide, by decide, by decide⟩

/-- C7: `deframe(frame(j)) = j` for every payload (whose length fits the
`u32` length prefix `struct.pack` accepts), and every unframed legacy
buffer beginning with `{` (0x7B) whose 4-byte little-endian prefix read as
a u32 exceeds the buffer length minus 4 is returned by `deframe`
unchanged. -/
theorem claim_C7_framing_roundtrip :
    (∀ j : List Nat, j.length < 4294967296 →
      deframeBytes (frameBytes j) = j) ∧
    (∀ buf : List Nat, buf.getD 0 0 = 123 →
      buf.length - 4 < le4Read buf → deframeBytes buf = buf) :=
  ⟨fun j hj => deframe_frame j hj,
   fun buf _ h => deframe_unframed buf h⟩

/-- C7 witness: the round-trip on a concrete 70-byte payload (which forces
a nonzero pad) and the legacy fallback on a concrete 44-byte buffer
starting with `{`. -/
theorem claim_C7_framing_roundtrip_witness :
    deframeBytes (frameBytes (List.replicate 70 7)) = List.replicate 70 7 ∧
    deframeBytes (123 :: List.replicate 43 34) = 123 :: List.replicate 43 34 :=
  ⟨claim_C7_framing_roundtrip.1 (List.replicate 70 7) (by decide),
   claim_C7_framing_roundtrip.2 (123 :: List.replicate 43 34) (by decide)
     (by decide)⟩

-- ### Field-free Lagrange interpolation over `ZMod PRIME` (claim C4 core)

set_option maxRecDepth 4000 in
theorem prime_no_small_divisor : ∀ d, 2 ≤ d → d ≤ 255 → PRIME % d ≠ 0 := by
  decide

theorem isUnit_small_cast (d : Nat) (h1 : 1 ≤ d) (h2 : d ≤ 255) :
    IsUnit (d : ZMod PRIME) := by
  rw [ZMod.isUnit_iff_coprime]
  have hgd : Nat.gcd d PRIME ∣ d := Nat.gcd_dvd_left _ _
  have hgp : Nat.gcd d PRIME ∣ PRIME := Nat.gcd_dvd_right _ _
  have hgle : Nat.gcd d PRIME ≤ d := Nat.le_of_dvd (by omega) hgd
  have hgpos : 0 < Nat.gcd d PRIME := Nat.gcd_pos_of_pos_left _ (by omega)
  by_contra hnc
  have hg2 : 2 ≤ Nat.gcd d PRIME := by
    rcases Nat.lt_or_ge (Nat.gcd d PRIME) 2 with h | h
    · exact absurd (show Nat.Coprime d PRIME from by unfold Nat.Coprime; omega) hnc
    · exact h
  exact prime_no_small_divisor (Nat.gcd d PRIME) hg2 (by omega)
    (Nat.dvd_iff_mod_eq_zero.mp hgp)

theorem isUnit_diff_cast (a b : Nat) (hne : a ≠ b)
    (ha1 : 1 ≤ a) (ha2 : a ≤ 255) (hb1 : 1 ≤ b) (hb2 : b ≤ 255) :
    IsUnit ((a : ZMod PRIME) - (b : ZMod PRIME)) := by
  rcases Nat.lt_or_ge a b with h | h
  · have : (a : ZMod PRIME) - (b : ZMod PRIME) =
        -(((b - a : Nat) : ZMod PRIME)) := by
      push_cast [Nat.cast_sub (le_of_lt h)]
      ring
    rw [this]
    exact (isUnit_small_cast (b - a) (by omega) (by omega)).neg
  · have hlt : b < a := by omega
    have : (a : ZMod PRIME) - (b : ZMod PRIME) =
        ((a - b : Nat) : ZMod PRIME) := by
      push_cast [Nat.cast_sub (le_of_lt hlt)]
      ring
    rw [this]
    exact isUnit_small_cast (a - b) (by omega) (by omega)

open Polynomial in
theorem poly_vanish_of_roots (pts : List (ZMod PRIME))
    (hpw : pts.Pairwise (fun a b => IsUnit (a - b))) :
    ∀ g : Polynomial (ZMod PRIME), g.degree < (pts.length : WithBot Nat) →
      (∀ p ∈ pts, g.eval p = 0) → g = 0 := by
  induction pts with
  | nil =>
      intro g hdeg _
      rw [List.length_nil] at hdeg
      exact degree_eq_bot.mp (Nat.WithBot.lt_zero_iff.mp (by exact_mod_cast hdeg))
  | cons p rest ih =>
      intro g hdeg hroots
      have hdvd : (X - C p) ∣ g :=
        dvd_iff_isRoot.mpr (hroots p (by simp))
      obtain ⟨h, hg⟩ := hdvd
      by_cases hh : h = 0
      · rw [hg, hh, mul_zero]
      · have hmono : Monic (X - C p) := monic_X_sub_C p
        have hdegg : g.degree = h.degree + 1 := by
          rw [hg, mul_comm, hmono.degree_mul, degree_X_sub_C]
        have hdegh : h.degree < (rest.length : WithBot Nat) := by
          rw [List.length_cons] at hdeg
          rw [hdegg] at hdeg
          rw [degree_eq_natDegree hh] at hdeg ⊢
          have h2 : h.natDegree + 1 < rest.length + 1 := by exact_mod_cast hdeg
          exact_mod_cast (show h.natDegree < rest.length by omega)
        have hr : ∀ q ∈ rest, h.eval q = 0 := by
          intro q hq
          have hu : IsUnit (p - q) := (List.pairwise_cons.mp hpw).1 q hq
          have hu2 : IsUnit (q - p) := by
            have : q - p = -(p - q) := by ring
            rw [this]
            exact hu.neg
          have : (q - p) * h.eval q = 0 := by
            have := hroots q (by simp [hq])
            rw [hg] at this
            simpa [eval_mul] using this
          exact (hu2.mul_right_eq_zero).mp this
        have := ih (List.pairwise_cons.mp hpw).2 h hdegh hr
        rw [hg, this, mul_zero]

theorem isUnit_finset_prod {s : Finset Nat} {f : Nat → ZMod PRIME}
    (h : ∀ i ∈ s, IsUnit (f i)) : IsUnit (∏ i ∈ s, f i) := by
  classical
  induction s using Finset.induction_on with
  | empty => simp
  | insert hni ih =>
      rename_i a t
      rw [Finset.prod_insert hni]
      exact (h a (by simp)).mul (ih (fun i hi => h i (by simp [hi])))

open Polynomial Finset in
theorem lagrange_at_zero (k : Nat) (hk : 1 ≤ k) (x : Nat → ZMod PRIME)
    (hud : ∀ i j, i < k → j < k → i ≠ j → IsUnit (x i - x j))
    (f : Polynomial (ZMod PRIME)) (hdeg : f.degree < (k : WithBot Nat)) :
    ∑ j ∈ Finset.range k,
      f.eval (x j) * (∏ m ∈ (Finset.range k).erase j, (0 - x m)) *
        (∏ m ∈ (Finset.range k).erase j, (x j - x m))⁻¹ = f.eval 0 := by
  classical
  set den : Nat → ZMod PRIME :=
    fun j => ∏ m ∈ (Finset.range k).erase j, (x j - x m) with hden
  have hden_unit : ∀ j ∈ Finset.range k, IsUnit (den j) := by
    intro j hj
    rw [hden]
    refine isUnit_finset_prod ?_
    intro m hm
    exact hud j m (mem_range.mp hj) (mem_range.mp (mem_of_mem_erase hm))
      (fun hc => (mem_erase.mp hm).1 hc.symm)
  set L : Polynomial (ZMod PRIME) :=
    ∑ j ∈ Finset.range k, C (f.eval (x j) * (den j)⁻¹) *
      ∏ m ∈ (Finset.range k).erase j, (X - C (x m)) with hL
  have hevalL : ∀ i ∈ Finset.range k, L.eval (x i) = f.eval (x i) := by
    intro i hi
    rw [hL, eval_finset_sum]
    rw [Finset.sum_eq_single i]
    · rw [eval_mul, eval_C, eval_prod]
      simp only [eval_sub, eval_X, eval_C]
      rw [mul_assoc]
      rw [show ∏ m ∈ (Finset.range k).erase i, (x i - x m) = den i from rfl]
      rw [mul_comm ((den i)⁻¹) (den i), ZMod.mul_inv_of_unit _ (hden_unit i hi),
        mul_one]
    · intro j hj hne
      rw [eval_mul, eval_prod]
      have hzero : ∏ m ∈ (Finset.range k).erase j,
          ((X - C (x m)).eval (x i)) = 0 := by
        refine Finset.prod_eq_zero
          (Finset.mem_erase.mpr ⟨fun hc => hne hc.symm, hi⟩) ?_
        simp
      rw [hzero, mul_zero]
    · intro hni
      exact absurd hi hni
  have hdegL : L.degree < (k : WithBot Nat) := by
    rw [hL]
    refine lt_of_le_of_lt (degree_sum_le _ _) ?_
    rw [Finset.sup_lt_iff (by exact_mod_cast WithBot.bot_lt_coe k)]
    intro j hj
    refine lt_of_le_of_lt (degree_mul_le _ _) ?_
    have hC : (C (f.eval (x j) * (den j)⁻¹)).degree ≤ 0 := degree_C_le
    have hP : (∏ m ∈ (Finset.range k).erase j, (X - C (x m))).degree ≤
        ((k - 1 : Nat) : WithBot Nat) := by
      refine le_trans (degree_prod_le _ _) ?_
      have hone : ∀ m ∈ (Finset.range k).erase j, (X - C (x m)).degree = 1 :=
        fun m _ => degree_X_sub_C (x m)
      rw [Finset.sum_congr rfl hone]
      rw [Finset.sum_const, Finset.card_erase_of_mem hj, Finset.card_range]
      simp [nsmul_eq_mul]
    calc (C (f.eval (x j) * (den j)⁻¹)).degree +
        (∏ m ∈ (Finset.range k).erase j, (X - C (x m))).degree
        ≤ 0 + ((k - 1 : Nat) : WithBot Nat) := add_le_add hC hP
      _ < (k : WithBot Nat) := by
          rw [zero_add]
          exact_mod_cast (show k - 1 < k by omega)
  have hfL : f = L := by
    have hsub : f - L = 0 := by
      refine poly_vanish_of_roots ((List.range k).map x) ?_ (f - L) ?_ ?_
      · rw [List.pairwise_map]
        refine List.Pairwise.imp_of_mem ?_ (List.pairwise_lt_range k)
        intro a b ha hb hlt
        exact hud a b (List.mem_range.mp ha) (List.mem_range.mp hb) (by omega)
      · rw [List.length_map, List.length_range]
        refine lt_of_le_of_lt (degree_sub_le _ _) ?_
        exact max_lt hdeg hdegL
      · intro p hp
        obtain ⟨i, hi, rfl⟩ := List.mem_map.mp hp
        rw [eval_sub, hevalL i (by simpa using hi), sub_self]
    exact sub_eq_zero.mp hsub
  have heval0 : L.eval 0 = ∑ j ∈ Finset.range k,
      f.eval (x j) * (∏ m ∈ (Finset.range k).erase j, (0 - x m)) *
        (den j)⁻¹ := by
    rw [hL, eval_finset_sum]
    refine Finset.sum_congr rfl ?_
    intro j hj
    rw [eval_mul, eval_C, eval_prod]
    simp only [eval_sub, eval_X, eval_C]
    ring
  rw [← heval0, ← hfL]

theorem polyEvalAux_cast (cs : List Nat) (x : Nat) : ∀ (i acc : Nat),
    ((polyEvalAux cs x i acc : Nat) : ZMod PRIME) =
      (acc : ZMod PRIME) + ∑ t ∈ Finset.range cs.length,
        ((cs.getD t 0 : Nat) : ZMod PRIME) * ((x : ZMod PRIME)) ^ (i + t) := by
  induction cs with
  | nil => simp [polyEvalAux]
  | cons c rest ih =>
      intro i acc
      rw [polyEvalAux, ih (i + 1) _]
      simp only [ZMod.natCast_mod]
      push_cast
      simp only [ZMod.natCast_mod]
      push_cast
      rw [List.length_cons, Finset.sum_range_succ']
      simp only [List.getD_cons_succ, List.getD_cons_zero, Nat.add_zero]
      have hsum : ∑ t ∈ Finset.range rest.length,
          ((rest.getD t 0 : Nat) : ZMod PRIME) * (x : ZMod PRIME) ^ (i + 1 + t) =
          ∑ t ∈ Finset.range rest.length,
          ((rest.getD t 0 : Nat) : ZMod PRIME) * (x : ZMod PRIME) ^ (i + (t + 1)) := by
        refine Finset.sum_congr rfl fun t _ => ?_
        rw [show i + 1 + t = i + (t + 1) by omega]
      rw [hsum]
      ring

theorem foldl_add_eq_sum (g : Nat → ZMod PRIME) (l : List Nat) :
    ∀ init : ZMod PRIME,
      l.foldl (fun a j => a + g j) init = init + (l.map g).sum := by
  induction l with
  | nil => intro init; simp
  | cons c cs ih =>
      intro init
      rw [List.foldl_cons, ih (init + g c)]
      simp [add_assoc]

theorem foldl_mul_eq_prod (g : Nat → ZMod PRIME) (l : List Nat) :
    ∀ init : ZMod PRIME,
      l.foldl (fun a j => a * g j) init = init * (l.map g).prod := by
  induction l with
  | nil => intro init; simp
  | cons c cs ih =>
      intro init
      rw [List.foldl_cons, ih (init * g c)]
      simp [mul_assoc]

theorem sum_list_range (g : Nat → ZMod PRIME) (n : Nat) :
    ((List.range n).map g).sum = ∑ j ∈ Finset.range n, g j := by
  induction n with
  | zero => simp
  | succ k ih =>
      rw [List.range_succ, List.map_append, List.sum_append,
        Finset.sum_range_succ, ih]
      simp

theorem prod_list_range_filter (g : Nat → ZMod PRIME) (j : Nat) (n : Nat) :
    (((List.range n).filter (fun m => m ≠ j)).map g).prod =
      ∏ m ∈ (Finset.range n).filter (fun m => m ≠ j), g m := by
  induction n with
  | zero => simp
  | succ k ih =>
      rw [List.range_succ, List.filter_append, List.map_append,
        List.prod_append, ih, Finset.range_succ, Finset.filter_insert]
      by_cases hj : k ≠ j
      · rw [if_pos hj]
        rw [Finset.prod_insert (by simp)]
        simp only [List.filter_cons, List.filter_nil]
        rw [if_pos (by simpa using hj)]
        simp [mul_comm]
      · rw [if_neg hj]
        simp only [List.filter_cons, List.filter_nil]
        rw [if_neg (by simpa using hj)]
        simp

theorem lagNum_eq (xs : List Nat) (j : Nat) :
    lagNum xs j = ∏ m ∈ (Finset.range xs.length).erase j,
      (0 - ((xs.getD m 0 : Nat) : ZMod PRIME)) := by
  rw [lagNum, foldl_mul_eq_prod, one_mul, prod_list_range_filter,
    Finset.filter_ne']

theorem lagDen_eq (xs : List Nat) (j : Nat) :
    lagDen xs j = ∏ m ∈ (Finset.range xs.length).erase j,
      (((xs.getD j 0 : Nat) : ZMod PRIME) - ((xs.getD m 0 : Nat) : ZMod PRIME)) := by
  rw [lagDen, foldl_mul_eq_prod, one_mul, prod_list_range_filter,
    Finset.filter_ne']

theorem lagrangeSum_eq (kS : List Shard) :
    lagrangeSum kS = ∑ j ∈ Finset.range kS.length,
      ((kS.getD j default).y : ZMod PRIME) * lagNum (kS.map (·.x)) j *
        (lagDen (kS.map (·.x)) j)⁻¹ := by
  rw [lagrangeSum, foldl_add_eq_sum, zero_add, sum_list_range]

theorem shard_mem_split {secret : String} {shares threshold : Nat}
    {session_key iv coeffs : List Nat} {share_id : String} {s : Shard}
    (h : s ∈ splitShamir secret shares threshold session_key iv coeffs share_id) :
    s.scheme = "p256" ∧ s.sid = share_id ∧ s.k = threshold ∧
    1 ≤ s.x ∧ s.x ≤ shares ∧
    s.y = polyEvalMod (beBytesToNat session_key :: coeffs) s.x ∧
    s.payload = iv ++ aesgcmEncrypt session_key iv (strBytes secret) := by
  simp only [splitShamir, List.mem_map, List.mem_range] at h
  obtain ⟨i, hi, rfl⟩ := h
  refine ⟨rfl, rfl, rfl, ?_, ?_, rfl, rfl⟩
  · show 1 ≤ i + 1
    omega
  · show i + 1 ≤ shares
    omega

theorem shard_eq_of_x_eq {secret : String} {shares threshold : Nat}
    {session_key iv coeffs : List Nat} {share_id : String} {s t : Shard}
    (hs : s ∈ splitShamir secret shares threshold session_key iv coeffs share_id)
    (ht : t ∈ splitShamir secret shares threshold session_key iv coeffs share_id)
    (hx : s.x = t.x) : s = t := by
  simp only [splitShamir, List.mem_map, List.mem_range] at hs ht
  obtain ⟨i, hi, rfl⟩ := hs
  obtain ⟨i2, hi2, rfl⟩ := ht
  simp only at hx
  simp [hx]

theorem getD_eq_get_of_lt {α : Type} [Inhabited α] (l : List α) (j : Nat)
    (h : j < l.length) : l.getD j default = l.get ⟨j, h⟩ := by
  rw [List.getD_eq_get]

theorem map_x_getD (S : List Shard) (j : Nat) (h : j < S.length) :
    (S.map (·.x)).getD j 0 = (S.getD j default).x := by
  rw [getD_eq_get_of_lt S j h]
  rw [List.getD_eq_get _ _ (by simpa using h)]
  rw [List.get_map]

open Polynomial Finset in
theorem lagrangeSum_split (secret : String) (shares threshold : Nat)
    (session_key iv coeffs : List Nat) (share_id : String) (S : List Shard)
    (hk1 : 1 ≤ threshold) (hn : shares ≤ 255)
    (hcoeffs : coeffs.length = threshold - 1)
    (hsub : ∀ s ∈ S,
      s ∈ splitShamir secret shares threshold session_key iv coeffs share_id)
    (hlen : S.length = threshold) (hnd : S.Nodup) :
    lagrangeSum S = ((beBytesToNat session_key : Nat) : ZMod PRIME) := by
  classical
  set cs : List Nat := beBytesToNat session_key :: coeffs with hcs
  have hcslen : cs.length = threshold := by
    rw [hcs, List.length_cons, hcoeffs]
    omega
  set ptv : Nat → ZMod PRIME :=
    fun m => (((S.map (·.x)).getD m 0 : Nat) : ZMod PRIME) with hptv
  set f : Polynomial (ZMod PRIME) :=
    ∑ t ∈ Finset.range cs.length, C ((cs.getD t 0 : Nat) : ZMod PRIME) * X ^ t
    with hf
  have hevalf : ∀ z : ZMod PRIME, f.eval z =
      ∑ t ∈ Finset.range cs.length, ((cs.getD t 0 : Nat) : ZMod PRIME) * z ^ t := by
    intro z
    rw [hf, eval_finset_sum]
    exact Finset.sum_congr rfl fun t _ => by
      rw [eval_mul, eval_C, eval_pow, eval_X]
  have hmemS : ∀ j, j < S.length →
      S.getD j default ∈ S := by
    intro j hj
    rw [getD_eq_get_of_lt S j hj]
    exact List.get_mem S j hj
  have hxfacts : ∀ j, (hj : j < S.length) →
      1 ≤ (S.getD j default).x ∧ (S.getD j default).x ≤ shares ∧
      (S.getD j default).y = polyEvalMod cs (S.getD j default).x := by
    intro j hj
    obtain ⟨_, _, _, h1, h2, h3, _⟩ := shard_mem_split (hsub _ (hmemS j hj))
    exact ⟨h1, h2, h3⟩
  have hXval : ∀ j, j < S.length →
      ptv j = (((S.getD j default).x : Nat) : ZMod PRIME) := by
    intro j hj
    simp only [hptv]
    rw [map_x_getD S j hj]
  have hxdist : ∀ i j, i < S.length → j < S.length → i ≠ j →
      (S.getD i default).x ≠ (S.getD j default).x := by
    intro i j hi hj hne hx
    have hieq : S.getD i default = S.getD j default :=
      shard_eq_of_x_eq (hsub _ (hmemS i hi)) (hsub _ (hmemS j hj)) hx
    rw [getD_eq_get_of_lt S i hi, getD_eq_get_of_lt S j hj] at hieq
    exact hne (Fin.mk.injEq _ _ _ _ ▸ (List.Nodup.get_inj_iff hnd).mp hieq)
  have hud : ∀ i j, i < S.length → j < S.length → i ≠ j → IsUnit (ptv i - ptv j) := by
    intro i j hi hj hne
    rw [hXval i hi, hXval j hj]
    obtain ⟨hi1, hi2, _⟩ := hxfacts i hi
    obtain ⟨hj1, hj2, _⟩ := hxfacts j hj
    exact isUnit_diff_cast _ _ (hxdist i j hi hj hne) hi1 (by omega) hj1 (by omega)
  have hdegf : f.degree < (S.length : WithBot Nat) := by
    rw [hf]
    refine lt_of_le_of_lt (degree_sum_le _ _) ?_
    rw [Finset.sup_lt_iff (by exact_mod_cast WithBot.bot_lt_coe S.length)]
    intro t ht
    refine lt_of_le_of_lt (degree_mul_le _ _) ?_
    have h1 : (C ((cs.getD t 0 : Nat) : ZMod PRIME)).degree ≤ 0 := degree_C_le
    have h2 : ((X : Polynomial (ZMod PRIME)) ^ t).degree ≤ (t : WithBot Nat) := by
      rw [degree_X_pow]
    calc (C ((cs.getD t 0 : Nat) : ZMod PRIME)).degree +
          ((X : Polynomial (ZMod PRIME)) ^ t).degree
        ≤ 0 + (t : WithBot Nat) := add_le_add h1 h2
      _ < (S.length : WithBot Nat) := by
          rw [zero_add]
          have : t < S.length := by
            rw [hlen, ← hcslen]
            exact Finset.mem_range.mp ht
          exact_mod_cast this
  have hyf : ∀ j, j < S.length →
      ((S.getD j default).y : ZMod PRIME) = f.eval (ptv j) := by
    intro j hj
    obtain ⟨_, _, h3⟩ := hxfacts j hj
    rw [h3, hevalf, hXval j hj]
    rw [polyEvalMod, polyEvalAux_cast]
    simp
  rw [lagrangeSum_eq]
  have hmain := lagrange_at_zero S.length (by omega) ptv hud f hdegf
  have hxs_len : (S.map (·.x)).length = S.length := by simp
  have hLHS : ∑ j ∈ Finset.range S.length,
      ((S.getD j default).y : ZMod PRIME) * lagNum (S.map (·.x)) j *
        (lagDen (S.map (·.x)) j)⁻¹ =
      ∑ j ∈ Finset.range S.length,
      f.eval (ptv j) * (∏ m ∈ (Finset.range S.length).erase j, (0 - ptv m)) *
        (∏ m ∈ (Finset.range S.length).erase j, (ptv j - ptv m))⁻¹ := by
    refine Finset.sum_congr rfl fun j hj => ?_
    rw [hyf j (Finset.mem_range.mp hj)]
    rw [lagNum_eq, lagDen_eq, hxs_len]
  rw [hLHS, hmain]
  rw [hevalf 0]
  rw [Finset.sum_eq_single 0]
  · rw [pow_zero, mul_one]
    rfl
  · intro t _ htne
    rw [zero_pow htne, mul_zero]
  · intro h0
    exfalso
    apply h0
    rw [Finset.mem_range, hcslen]
    omega

/-- C4, amended: for every secret, every `1 ≤ k ≤ n ≤ 255`, and every
subset `S` of exactly `k` distinct shards produced by
`split(secret, n, k)`, `combine(S)` returns the original secret — provided
the random 32-byte session key, read as a big-endian integer, is below the
field prime `P = 2^256 - 2^32 - 977` (true except with probability below
`2^-224`; the counterexample shows the claim fails as stated for a session
key at or above `P`, whose reduction mod `P` reconstructs a different key
and makes the authenticated decryption fail). -/
theorem claim_C4_shamir_roundtrip (secret : String) (shares threshold : Nat)
    (session_key iv coeffs : List Nat) (share_id : String) (S : List Shard)
    (hk1 : 1 ≤ threshold) (hkn : threshold ≤ shares) (hn : shares ≤ 255)
    (hsk_len : session_key.length = 32) (hsk_ok : BytesOk session_key)
    (hsk_lt : beBytesToNat session_key < PRIME)
    (hcoeffs : coeffs.length = threshold - 1)
    (hiv : iv.length = 12)
    (hsub : ∀ s ∈ S,
      s ∈ splitShamir secret shares threshold session_key iv coeffs share_id)
    (hlen : S.length = threshold) (hnd : S.Nodup) :
    combineShamir S = .ok (strBytes secret) := by
  match S, hlen with
  | [], hlen => simp at hlen; omega
  | s0 :: rest, hlen =>
  obtain ⟨hsch0, hsid0, hk0, _, _, _, hpay0⟩ :=
    shard_mem_split (hsub s0 (by simp))
  have hno_s1 : ¬ ((s0 :: rest).any (fun s => s.scheme = "s1") = true) := by
    rw [List.any_eq_true]
    rintro ⟨s, hs, hdec⟩
    obtain ⟨hsch, _⟩ := shard_mem_split (hsub s hs)
    rw [hsch] at hdec
    simp at hdec
  have hno_p256 : ¬ ((s0 :: rest).any (fun s => s.scheme ≠ "p256") = true) := by
    rw [List.any_eq_true]
    rintro ⟨s, hs, hdec⟩
    obtain ⟨hsch, _⟩ := shard_mem_split (hsub s hs)
    rw [hsch] at hdec
    simp at hdec
  have hno_sid : ¬ ((s0 :: rest).any (fun s => s.sid ≠ s0.sid) = true) := by
    rw [List.any_eq_true]
    rintro ⟨s, hs, hdec⟩
    obtain ⟨_, hsid, _⟩ := shard_mem_split (hsub s hs)
    rw [hsid, hsid0] at hdec
    simp at hdec
  have hno_pay : ¬ ((s0 :: rest).any (fun s => s.payload ≠ s0.payload) = true) := by
    rw [List.any_eq_true]
    rintro ⟨s, hs, hdec⟩
    obtain ⟨_, _, _, _, _, _, hpay⟩ := shard_mem_split (hsub s hs)
    rw [hpay, hpay0] at hdec
    simp at hdec
  have hno_len : ¬ ((s0 :: rest).length < s0.k) := by
    rw [hk0, hlen]
    omega
  have htake : (s0 :: rest).take s0.k = s0 :: rest := by
    rw [hk0, ← hlen]
    exact List.take_length _
  rw [combineShamir]
  rw [if_neg hno_s1, if_neg hno_p256, if_neg hno_sid, if_neg hno_pay,
    if_neg hno_len]
  show (match aesgcmDecrypt
      (natToBeBytes 32 (lagrangeSum ((s0 :: rest).take s0.k)).val)
      (s0.payload.take 12) (s0.payload.drop 12) with
    | some pt => Except.ok pt
    | none => Except.error "Decryption failed. Invalid recovered key.") =
    Except.ok (strBytes secret)
  rw [htake]
  rw [lagrangeSum_split secret shares threshold session_key iv coeffs share_id
    (s0 :: rest) hk1 hn hcoeffs hsub hlen hnd]
  rw [ZMod.val_cast_of_lt hsk_lt]
  rw [show natToBeBytes 32 (beBytesToNat session_key) = session_key from by
    rw [← hsk_len]
    exact natToBeBytes_beBytesToNat session_key hsk_ok]
  rw [hpay0, List.take_left' hiv, List.drop_left' hiv, aesgcm_roundtrip]

set_option maxRecDepth 10000 in
/-- C4 witness: a 3-of-5 split of `"topsecret"` recovered from the shards
at positions 0, 2, 4, via the theorem. -/
theorem claim_C4_shamir_roundtrip_witness :
    combineShamir
      [(splitShamir "topsecret" 5 3 (List.replicate 32 5) (List.replicate 12 6)
          [11, 22] "abcd1234").getD 0 default,
       (splitShamir "topsecret" 5 3 (List.replicate 32 5) (List.replicate 12 6)
          [11, 22] "abcd1234").getD 2 default,
       (splitShamir "topsecret" 5 3 (List.replicate 32 5) (List.replicate 12 6)
          [11, 22] "abcd1234").getD 4 default] = .ok (strBytes "topsecret") :=
  claim_C4_shamir_roundtrip "topsecret" 5 3 (List.replicate 32 5)
    (List.replicate 12 6) [11, 22] "abcd1234" _
    (by decide) (by decide) (by decide) (by decide) (by decide) (by decide)
    (by decide) (by decide) (by decide) (by decide) (by decide)

set_option maxRecDepth 10000 in
/-- C4 counterexample: when the random 32-byte session key (here all
`0xFF`) is at least the field prime, the Lagrange reconstruction returns
the key reduced mod `P`, the rebuilt 32-byte key differs from the real one,
and `combine` of all shards of a `(1,1)` split fails with the auth error
instead of returning the secret — so the claim as stated (for every split,
i.e. every random draw) is false. -/
theorem claim_C4_counterexample :
    PRIME ≤ beBytesToNat (List.replicate 32 255) ∧
    combineShamir
      (splitShamir "s" 1 1 (List.replicate 32 255) (List.replicate 12 6) [] "ab") =
      .error "Decryption failed. Invalid recovered key." := by
  refine ⟨by decide, ?_⟩
  set sh : Shard :=
    ⟨"p256", "ab", 1, 1, polyEvalMod [beBytesToNat (List.replicate 32 255)] 1,
     List.replicate 12 6 ++ aesgcmEncrypt (List.replicate 32 255)
       (List.replicate 12 6) (strBytes "s")⟩ with hsh
  have hsplit : splitShamir "s" 1 1 (List.replicate 32 255)
      (List.replicate 12 6) [] "ab" = [sh] := rfl
  rw [hsplit, combineShamir]
  rw [if_neg (by decide), if_neg (by decide), if_neg (by decide),
    if_neg (by decide), if_neg (by decide)]
  have hnum : lagNum ([sh].map (·.x)) 0 = 1 := rfl
  have hden : lagDen ([sh].map (·.x)) 0 = 1 := rfl
  have hlag : lagrangeSum [sh] =
      ((polyEvalMod [beBytesToNat (List.replicate 32 255)] 1 : Nat) :
        ZMod PRIME) := by
    rw [lagrangeSum_eq]
    simp only [List.length_singleton]
    rw [Finset.sum_range_one]
    rw [hnum, hden, ZMod.inv_one, mul_one, mul_one]
    rfl
  have htk : [sh].take sh.k = [sh] := rfl
  show (match aesgcmDecrypt
      (natToBeBytes 32 (lagrangeSum ([sh].take sh.k)).val)
      (sh.payload.take 12) (sh.payload.drop 12) with
    | some pt => Except.ok pt
    | none => Except.error "Decryption failed. Invalid recovered key.") =
    Except.error "Decryption failed. Invalid recovered key."
  rw [htk, hlag, ZMod.val_natCast]
  have hdec : aesgcmDecrypt
      (natToBeBytes 32 (polyEvalMod [beBytesToNat (List.replicate 32 255)] 1 % PRIME))
      (sh.payload.take 12) (sh.payload.drop 12) = none := by
    rw [hsh]
    decide
  rw [hdec]
